import Mathlib

/-!
Verification development for the cross-runtime tool execution bridge
(registry, schema validation, type/case conversion, transport bookkeeping,
error classification).  The Python source files are embedded shallowly as
executable Lean definitions.  JSON-like trees are represented by mutual
inductive families (a value type together with its own list and
association-list types) so that every function over them is structurally
recursive and kernel-computable.  Machine-level concerns (wall-clock
timestamps, process handles, event-loop scheduling) are represented by
explicit oracle arguments describing the outcome of the corresponding
awaited operation.
-/

namespace OpenCodeBridge

/-! ## Basic string helpers (Python `in`, `str.lower`, prefixes) -/

/-- ASCII uppercase test (the character class A-Z of the conversion regexes). -/
def isUpperChar (c : Char) : Bool := 65 ≤ c.toNat && c.toNat ≤ 90

/-- ASCII lowercase test (the character class a-z of the conversion regexes). -/
def isLowerChar (c : Char) : Bool := 97 ≤ c.toNat && c.toNat ≤ 122

/-- ASCII digit test (the character class 0-9 of the conversion regexes). -/
def isDigitChar (c : Char) : Bool := 48 ≤ c.toNat && c.toNat ≤ 57

/-- Python `str.lower` on one ASCII character. -/
def pyLowerChar (c : Char) : Char := if isUpperChar c then Char.ofNat (c.toNat + 32) else c

/-- Python `str.capitalize` first-character uppercasing on one ASCII character. -/
def pyUpperChar (c : Char) : Char := if isLowerChar c then Char.ofNat (c.toNat - 32) else c

/-- Does `needle` occur at the start of `hay`?  (List form of Python `startswith`.) -/
def startsList : List Char → List Char → Bool
  | [], _ => true
  | _ :: _, [] => false
  | a :: as, b :: bs => a == b && startsList as bs

/-- Does `needle` occur anywhere inside `hay`? -/
def occursAt : List Char → List Char → Bool
  | needle, [] => startsList needle []
  | needle, c :: rest => startsList needle (c :: rest) || occursAt needle rest

/-- Python substring test `needle in hay`. -/
def strContains (hay needle : String) : Bool := occursAt needle.data hay.data

/-- Python `str.lower` over a whole string (ASCII). -/
def pyLower (s : String) : String := ⟨s.data.map pyLowerChar⟩

/-! ## Case converter — `src/shared/types/converters/python/case_converter.py`

`camel_to_snake` performs two `re.sub` passes and lowers the result;
`snake_to_camel` splits on underscores and capitalizes the tail components.
The two `re.sub` passes are embedded with Python's left-to-right,
non-overlapping, greedy scan semantics. -/

/-- First pass of `camel_to_snake`:
`re.sub('(.)([A-Z][a-z]+)', r'\1_\2', name)` — insert an underscore between
any character and an uppercase letter that is followed by one or more
lowercase letters; the lowercase run is consumed greedily and scanning
resumes after the match, as `re.sub` does.  The scan carries an explicit
fuel argument (the list length bounds the number of scan steps) so the
definition stays structurally recursive and kernel-computable; with fuel
exhausted the remainder is returned unchanged, which never happens for
`fuel = length`. -/
def camelSub1Go : Nat → List Char → List Char
  | 0, l => l
  | _ + 1, [] => []
  | _ + 1, [c] => [c]
  | _ + 1, [c, u] => [c, u]
  | fuel + 1, c :: u :: l :: rest2 =>
    if isUpperChar u && isLowerChar l then
      let lows := (l :: rest2).takeWhile isLowerChar
      let rest3 := (l :: rest2).dropWhile isLowerChar
      c :: '_' :: u :: (lows ++ camelSub1Go fuel rest3)
    else
      c :: camelSub1Go fuel (u :: l :: rest2)

/-- First `re.sub` pass of `camel_to_snake` at full fuel. -/
def camelSub1 (l : List Char) : List Char := camelSub1Go l.length l

/-- Second pass of `camel_to_snake`:
`re.sub('([a-z0-9])([A-Z])', r'\1_\2', s1)` — insert an underscore between a
lowercase letter or digit and an uppercase letter (non-overlapping scan: the
consumed uppercase letter cannot start a later match, so recursing past the
pair is faithful). -/
def camelSub2 : List Char → List Char
  | [] => []
  | [a] => [a]
  | a :: b :: rest2 =>
    if (isLowerChar a || isDigitChar a) && isUpperChar b then
      a :: '_' :: b :: camelSub2 rest2
    else
      a :: camelSub2 (b :: rest2)

/-- `camel_to_snake(name)`: two substitution passes, then `.lower()`. -/
def camelToSnake (s : String) : String :=
  ⟨(camelSub2 (camelSub1 s.data)).map pyLowerChar⟩

/-- Python `name.split('_')` on character lists (empty components preserved;
the empty string splits into one empty component). -/
def splitUnderscore : List Char → List (List Char)
  | [] => [[]]
  | c :: rest =>
    match splitUnderscore rest with
    | [] => [[c]]
    | g :: gs => if c == '_' then [] :: g :: gs else (c :: g) :: gs

/-- Python `str.capitalize`: first character uppercased, the rest lowered. -/
def capitalizePy : List Char → List Char
  | [] => []
  | c :: rest => pyUpperChar c :: rest.map pyLowerChar

/-- `snake_to_camel(name)`: split on underscores, keep the first component,
capitalize and join the rest. -/
def snakeToCamel (s : String) : String :=
  match splitUnderscore s.data with
  | [] => ""
  | g :: gs => ⟨g ++ (gs.map capitalizePy).flatten⟩

/-! ## JSON-compatible trees

`JValue` is the universe of JSON-compatible Python values handled by the
key converters and the schema validator: `None`, `bool`, `int`, `float`
(embedded as rationals), `str`, `list` (`JArr`), `dict` with string keys
(`JObj`, an insertion-ordered association list exactly like a CPython
dict).  Non-string dict keys pass through the converters unchanged in the
source and play no role in the claims, so keys are embedded as strings. -/

mutual

inductive JValue where
  | jNull : JValue
  | jBool : Bool → JValue
  | jInt : Int → JValue
  | jFloat : Rat → JValue
  | jStr : String → JValue
  | jList : JArr → JValue
  | jDict : JObj → JValue

inductive JArr where
  | anil : JArr
  | acons : JValue → JArr → JArr

inductive JObj where
  | onil : JObj
  | ocons : String → JValue → JObj → JObj

end

deriving instance DecidableEq for JValue, JArr, JObj

open JValue JArr JObj

/-- CPython dict assignment: an existing key keeps its position and receives
the new value; a new key is appended at the end. -/
def objAssign : JObj → String → JValue → JObj
  | onil, k, v => ocons k v onil
  | ocons k0 v0 rest, k, v =>
    if k0 = k then ocons k0 v rest else ocons k0 v0 (objAssign rest k v)

/-- Association-list lookup (Python `dict.get` / `key in dict`). -/
def objFind : JObj → String → Option JValue
  | onil, _ => none
  | ocons k0 v0 rest, k => if k0 = k then some v0 else objFind rest k

/-- The keys of a dict in insertion order. -/
def objKeys : JObj → List String
  | onil => []
  | ocons k _ rest => k :: objKeys rest

/-- Dict concatenation (used only to state lemmas about rebuilt dicts). -/
def objCat : JObj → JObj → JObj
  | acc, onil => acc
  | acc, ocons k v rest => objCat (objAssign acc k v) rest

/-- Plain dict append (a stating device for lemmas about the rebuild loop). -/
def objApp : JObj → JObj → JObj
  | onil, ys => ys
  | ocons k v rest, ys => ocons k v (objApp rest ys)

/-! ### `keys_to_snake_case` / `keys_to_camel_case`

From `case_converter.py`: primitives pass through, lists recurse
element-wise, dicts are rebuilt by assigning the converted key to the
converted value in iteration order (duplicate converted keys overwrite,
exactly as the Python dict assignment does). -/

mutual

/-- `keys_to_snake_case(obj)`. -/
def keysToSnakeCase : JValue → JValue
  | jNull => jNull
  | jBool b => jBool b
  | jInt n => jInt n
  | jFloat q => jFloat q
  | jStr s => jStr s
  | jList xs => jList (keysToSnakeArr xs)
  | jDict kvs => jDict (keysToSnakeObj kvs onil)

/-- Element-wise recursion of `keys_to_snake_case` over a list. -/
def keysToSnakeArr : JArr → JArr
  | anil => anil
  | acons v rest => acons (keysToSnakeCase v) (keysToSnakeArr rest)

/-- The dict-rebuilding loop of `keys_to_snake_case`: `acc` is the
`converted` dict built so far. -/
def keysToSnakeObj : JObj → JObj → JObj
  | onil, acc => acc
  | ocons k v rest, acc =>
    keysToSnakeObj rest (objAssign acc (camelToSnake k) (keysToSnakeCase v))

end

mutual

/-- `keys_to_camel_case(obj)`. -/
def keysToCamelCase : JValue → JValue
  | jNull => jNull
  | jBool b => jBool b
  | jInt n => jInt n
  | jFloat q => jFloat q
  | jStr s => jStr s
  | jList xs => jList (keysToCamelArr xs)
  | jDict kvs => jDict (keysToCamelObj kvs onil)

/-- Element-wise recursion of `keys_to_camel_case` over a list. -/
def keysToCamelArr : JArr → JArr
  | anil => anil
  | acons v rest => acons (keysToCamelCase v) (keysToCamelArr rest)

/-- The dict-rebuilding loop of `keys_to_camel_case`. -/
def keysToCamelObj : JObj → JObj → JObj
  | onil, acc => acc
  | ocons k v rest, acc =>
    keysToCamelObj rest (objAssign acc (snakeToCamel k) (keysToCamelCase v))

end

/-- A key made of lowercase ASCII letters and digits only. -/
def lowerAlnumKey (s : String) : Bool :=
  s.data.all fun c => isLowerChar c || isDigitChar c

mutual

/-- Trees whose dicts are real Python dicts (no duplicate keys) with keys
made of lowercase letters and digits only. -/
def lowerAlnumTree : JValue → Bool
  | jNull => true
  | jBool _ => true
  | jInt _ => true
  | jFloat _ => true
  | jStr _ => true
  | jList xs => lowerAlnumArr xs
  | jDict kvs => decide (objKeys kvs).Nodup && lowerAlnumObj kvs

/-- `lowerAlnumTree` over a list. -/
def lowerAlnumArr : JArr → Bool
  | anil => true
  | acons v rest => lowerAlnumTree v && lowerAlnumArr rest

/-- `lowerAlnumTree` over dict entries. -/
def lowerAlnumObj : JObj → Bool
  | onil => true
  | ocons k v rest => lowerAlnumKey k && lowerAlnumTree v && lowerAlnumObj rest

end

/-- A key made of ASCII letters and digits only (the class of keys the
round-trip claim quantifies over). -/
def alnumKey (s : String) : Bool :=
  s.data.all fun c => isUpperChar c || isLowerChar c || isDigitChar c

/-! ## Schema validator — `src/shared/tools/type_converter.py`,
`TypeConverter.validate_against_schema`

The schema document is embedded as a record-like inductive carrying every
keyword the validator reads, `none`/empty when the keyword is absent.
Keywords whose absent and empty forms are indistinguishable to the
validator (`properties`, `required`) are plain containers; keywords where
presence matters (`enum`, `anyOf`, `oneOf`, `allOf`, `items`) are wrapped
in option-like members of the mutual family.  `pattern` is embedded as a
literal string matched as a prefix, which is exactly `re.match` for
patterns without metacharacters.  Error-message strings keep the source
wording but abbreviate interpolated `repr`s and drop quote marks. -/

/-- The recognized values of the `type` keyword. -/
inductive SType where
  | tString : SType
  | tNumber : SType
  | tInteger : SType
  | tBoolean : SType
  | tArray : SType
  | tObject : SType
  | tNull : SType
deriving DecidableEq

mutual

/-- A JSON-Schema-like document, fields in the order the validator reads
them: type, minLength, maxLength, pattern, enum, minimum, maximum,
minItems, maxItems, items, properties, required, additionalProperties,
anyOf, oneOf, allOf. -/
inductive Schema where
  | mk :
      Option SType → Option Nat → Option Nat → Option String → Option JArr →
      Option Rat → Option Rat → Option Nat → Option Nat → OptSchema →
      PropL → List String → Option Bool → OptSchemaL → OptSchemaL → OptSchemaL → Schema

/-- An optional subschema (the `items` keyword). -/
inductive OptSchema where
  | noneS : OptSchema
  | someS : Schema → OptSchema

/-- The `properties` map: property name to subschema, in insertion order. -/
inductive PropL where
  | pnil : PropL
  | pcons : String → Schema → PropL → PropL

/-- An optional list of subschemas (`anyOf` / `oneOf` / `allOf`). -/
inductive OptSchemaL where
  | absentL : OptSchemaL
  | presentL : SchemaL → OptSchemaL

/-- A list of subschemas. -/
inductive SchemaL where
  | snil : SchemaL
  | scons : Schema → SchemaL → SchemaL

end

deriving instance DecidableEq for Schema, OptSchema, PropL, OptSchemaL, SchemaL

open SType Schema OptSchema PropL OptSchemaL SchemaL

/-- The Python numeric view of a value: `isinstance(value, (int, float))`
succeeds for ints, floats and bools (a Python `bool` is an `int`), and
comparisons coerce all three to one numeric line. -/
def numVal : JValue → Option Rat
  | jBool b => some (if b then 1 else 0)
  | jInt n => some (n : Rat)
  | jFloat q => some q
  | _ => none

/-- Python `==` on embedded values: cross-type numeric equality
(`True == 1`, `1 == 1.0`), structural equality elsewhere. -/
def pyEqJ (a b : JValue) : Bool :=
  match numVal a, numVal b with
  | some x, some y => x == y
  | _, _ => a == b

/-- Python `value in enum_list`. -/
def pyMemArr (v : JValue) : JArr → Bool
  | anil => false
  | acons x rest => pyEqJ v x || pyMemArr v rest

/-- `len` of an embedded list. -/
def arrLen : JArr → Nat
  | anil => 0
  | acons _ rest => arrLen rest + 1

/-- `key in dict`. -/
def objHasKey (kvs : JObj) (k : String) : Bool := (objFind kvs k).isSome

/-- Python `type(value).__name__` for the embedded values. -/
def typeName : JValue → String
  | jNull => "NoneType"
  | jBool _ => "bool"
  | jInt _ => "int"
  | jFloat _ => "float"
  | jStr _ => "str"
  | jList _ => "list"
  | jDict _ => "dict"

/-- One `if key in schema and bad: return False, msg` step of the
validator; absent keyword or passing check falls through to `next`. -/
def optCheck (o : Option α) (bad : α → Bool) (msg : α → String)
    (next : Bool × Option String) : Bool × Option String :=
  match o with
  | some a => if bad a then (false, some (msg a)) else next
  | none => next

/-- The property names of a `properties` map (for `additionalProperties`). -/
def propKeys : PropL → List String
  | pnil => []
  | pcons k _ rest => k :: propKeys rest

/-- The `required` loop: first missing required property name, if any. -/
def requiredFirstMissing : List String → JObj → Option String
  | [], _ => none
  | r :: rest, kvs =>
    if objHasKey kvs r then requiredFirstMissing rest kvs else some r

/-- The `items` loop: validate each element with `f`, stopping at the first
failure with the `Array item i:` message (`f` is the validator fixed at the
`items` subschema). -/
def itemsLoopF (f : JValue → Bool × Option String) : JArr → Nat → Bool × Option String
  | anil, _ => (true, none)
  | acons x rest, i =>
    match f x with
    | (true, _) => itemsLoopF f rest (i + 1)
    | (false, e) =>
      (false, some ("Array item " ++ toString i ++ ": " ++ e.getD ""))

/-- `all` of a predicate over an embedded list. -/
def arrAllF (g : JValue → Bool) : JArr → Bool
  | anil => true
  | acons x rest => g x && arrAllF g rest

mutual

/-- `TypeConverter.validate_against_schema(value, schema)`: dispatch on the
`type` keyword; each typed branch checks its own keywords in source order
and returns at the first violation; `anyOf`/`oneOf`/`allOf` are reached
only when no recognized `type` is present; a schema with neither returns
`(True, None)`. -/
def validateJ : Schema → JValue → Bool × Option String
  | .mk stype minL maxL pat enumV mn mx minI maxI items props req addP anyS oneS allS, v =>
    match stype with
    | some tString =>
      match v with
      | jStr s =>
        optCheck minL (fun n => s.length < n)
          (fun n => "String length " ++ toString s.length ++ " is less than minimum " ++
            toString n)
          (optCheck maxL (fun n => s.length > n)
            (fun n => "String length " ++ toString s.length ++ " is greater than maximum " ++
              toString n)
            (optCheck pat (fun p => !startsList p.data s.data)
              (fun p => "String does not match pattern " ++ p)
              (optCheck enumV (fun es => !pyMemArr (jStr s) es)
                (fun _ => "Value " ++ s ++ " is not in enum")
                (true, none))))
      | _ => (false, some ("Expected string, got " ++ typeName v))
    | some tNumber =>
      match numVal v with
      | some x =>
        optCheck mn (fun m => x < m) (fun _ => "Value is less than minimum")
          (optCheck mx (fun m => x > m) (fun _ => "Value is greater than maximum")
            (true, none))
      | none => (false, some ("Expected number, got " ++ typeName v))
    | some tInteger =>
      match numVal v with
      | some x =>
        match v with
        | jFloat _ => (false, some "Expected integer, got float")
        | _ =>
          optCheck mn (fun m => x < m) (fun _ => "Value is less than minimum")
            (optCheck mx (fun m => x > m) (fun _ => "Value is greater than maximum")
              (true, none))
      | none => (false, some ("Expected number, got " ++ typeName v))
    | some tBoolean =>
      match v with
      | jBool _ => (true, none)
      | _ => (false, some ("Expected boolean, got " ++ typeName v))
    | some tArray =>
      match v with
      | jList xs =>
        optCheck minI (fun n => arrLen xs < n)
          (fun n => "Array length " ++ toString (arrLen xs) ++ " is less than minimum " ++
            toString n)
          (optCheck maxI (fun n => arrLen xs > n)
            (fun n => "Array length " ++ toString (arrLen xs) ++ " is greater than maximum " ++
              toString n)
            (match items with
             | someS Si => itemsLoopF (fun x => validateJ Si x) xs 0
             | noneS => (true, none)))
      | _ => (false, some ("Expected array, got " ++ typeName v))
    | some tObject =>
      match v with
      | jDict kvs =>
        match validatePropsLoop props kvs with
        | (false, e) => (false, e)
        | (true, _) =>
          match requiredFirstMissing req kvs with
          | some r => (false, some ("Missing required property " ++ r))
          | none =>
            if addP == some false then
              if (objKeys kvs).any (fun k => !(propKeys props).contains k) then
                (false, some "Additional properties not allowed")
              else (true, none)
            else (true, none)
      | _ => (false, some ("Expected object, got " ++ typeName v))
    | some tNull =>
      match v with
      | jNull => (true, none)
      | _ => (false, some ("Expected null, got " ++ typeName v))
    | none =>
      match anyS with
      | presentL ss =>
        if anyOfLoop ss v then (true, none)
        else (false, some "Value does not match any of the schemas")
      | absentL =>
        match oneS with
        | presentL ss =>
          match oneOfCount ss v with
          | 1 => (true, none)
          | 0 => (false, some "Value does not match any of the schemas")
          | _ => (false, some "Value matches multiple schemas")
        | absentL =>
          match allS with
          | presentL ss => allOfLoop ss v
          | absentL => (true, none)

/-- The `properties` loop: validate each declared property that is present,
stopping at the first failure with the `Property p:` message. -/
def validatePropsLoop : PropL → JObj → Bool × Option String
  | pnil, _ => (true, none)
  | pcons p Sp rest, kvs =>
    match objFind kvs p with
    | some w =>
      match validateJ Sp w with
      | (true, _) => validatePropsLoop rest kvs
      | (false, e) => (false, some ("Property " ++ p ++ ": " ++ e.getD ""))
    | none => validatePropsLoop rest kvs

/-- The `anyOf` loop: does any subschema validate? -/
def anyOfLoop : SchemaL → JValue → Bool
  | snil, _ => false
  | scons s rest, v => (validateJ s v).1 || anyOfLoop rest v

/-- The `oneOf` loop: how many subschemas validate? -/
def oneOfCount : SchemaL → JValue → Nat
  | snil, _ => 0
  | scons s rest, v => (if (validateJ s v).1 then 1 else 0) + oneOfCount rest v

/-- The `allOf` loop: first failing subschema's error, else success. -/
def allOfLoop : SchemaL → JValue → Bool × Option String
  | snil, _ => (true, none)
  | scons s rest, v =>
    match validateJ s v with
    | (true, _) => allOfLoop rest v
    | (false, e) => (false, e)

end

/-! ### The specification predicate

Modelled from the spec: "`validate(S, v).ok == true` iff `v` satisfies
every constraint in `S`".  A value satisfies a schema when it meets every
keyword that is present: the type keyword in the Python value model (a
`bool` is an `int`), string bounds and prefix patterns on strings,
numeric bounds on numbers, `enum` membership under Python equality for
every value kind, item/property subschemas recursively, `required` and
`additionalProperties` on objects, and each present composition.
Keywords that speak about another value kind are vacuous (a `minLength`
does not constrain a number), as in JSON Schema. -/

/-- Does the value have the given JSON type (Python value model)? -/
def typeMatches : SType → JValue → Bool
  | tString, jStr _ => true
  | tNumber, v => (numVal v).isSome
  | tInteger, jInt _ => true
  | tInteger, jBool _ => true
  | tBoolean, jBool _ => true
  | tArray, jList _ => true
  | tObject, jDict _ => true
  | tNull, jNull => true
  | _, _ => false

/-- `all` of a predicate over required names. -/
def reqAll (req : List String) (kvs : JObj) : Bool :=
  req.all fun r => objHasKey kvs r

/-- Are all keys of the object declared properties? -/
def keysSubset (kvs : JObj) (props : PropL) : Bool :=
  (objKeys kvs).all fun k => (propKeys props).contains k

/-- A present optional constraint must hold, an absent one is vacuous. -/
def optHolds (o : Option α) (ok : α → Bool) : Bool :=
  match o with
  | some a => ok a
  | none => true

/-- A constraint on list values: vacuous on any other value kind. -/
def listOr (v : JValue) (b : JArr → Bool) : Bool :=
  match v with
  | jList xs => b xs
  | _ => true

/-- A constraint on object values: vacuous on any other value kind. -/
def dictOr (v : JValue) (b : JObj → Bool) : Bool :=
  match v with
  | jDict kvs => b kvs
  | _ => true

/-- The keyword checks of the satisfaction predicate that need no recursion:
type, string bounds and pattern, `enum`, numeric bounds, array bounds,
`required` and `additionalProperties`; the recursively computed verdicts for
`items`, `properties` and the three compositions are passed in. -/
def satBody (stype : Option SType) (minL maxL : Option Nat) (pat : Option String)
    (enumV : Option JArr) (mn mx : Option Rat) (minI maxI : Option Nat)
    (props : PropL) (req : List String) (addP : Option Bool) (v : JValue)
    (itemsOk propsOk anyOk oneOk allOk : Bool) : Bool :=
  optHolds stype (fun t => typeMatches t v) &&
  optHolds minL (fun n => match v with | jStr s => n ≤ s.length | _ => true) &&
  optHolds maxL (fun n => match v with | jStr s => s.length ≤ n | _ => true) &&
  optHolds pat (fun p => match v with | jStr s => startsList p.data s.data | _ => true) &&
  optHolds enumV (fun es => pyMemArr v es) &&
  optHolds mn (fun m => match numVal v with | some x => m ≤ x | none => true) &&
  optHolds mx (fun m => match numVal v with | some x => x ≤ m | none => true) &&
  optHolds minI (fun n => match v with | jList xs => n ≤ arrLen xs | _ => true) &&
  optHolds maxI (fun n => match v with | jList xs => arrLen xs ≤ n | _ => true) &&
  itemsOk &&
  propsOk &&
  dictOr v (fun kvs => reqAll req kvs) &&
  (if addP == some false then dictOr v (fun kvs => keysSubset kvs props) else true) &&
  anyOk &&
  oneOk &&
  allOk

mutual

/-- `v` satisfies every constraint present in `S` (spec reading): all the
keyword checks of `satBody`, the `items` subschema on every element of a
list value, every declared property that is present, and each present
composition read as its quantifier. -/
def satisfiesJ : Schema → JValue → Bool
  | .mk stype minL maxL pat enumV mn mx minI maxI items props req addP anyS oneS allS, v =>
    satBody stype minL maxL pat enumV mn mx minI maxI props req addP v
      (listOr v (fun xs => optItemsAll items xs))
      (dictOr v (fun kvs => propsAllSat props kvs))
      (optAnySat anyS v)
      (optOneSat oneS v)
      (optAllSat allS v)

/-- A present `items` subschema holds of every element; an absent one is
vacuous. -/
def optItemsAll : OptSchema → JArr → Bool
  | noneS, _ => true
  | someS Si, xs => arrAllF (fun x => satisfiesJ Si x) xs

/-- A present `anyOf` needs some subschema satisfied. -/
def optAnySat : OptSchemaL → JValue → Bool
  | absentL, _ => true
  | presentL ss, v => anySat ss v

/-- A present `oneOf` needs exactly one subschema satisfied. -/
def optOneSat : OptSchemaL → JValue → Bool
  | absentL, _ => true
  | presentL ss, v => countSat ss v == 1

/-- A present `allOf` needs every subschema satisfied. -/
def optAllSat : OptSchemaL → JValue → Bool
  | absentL, _ => true
  | presentL ss, v => allSat ss v

/-- Every declared property that is present satisfies its subschema. -/
def propsAllSat : PropL → JObj → Bool
  | pnil, _ => true
  | pcons p Sp rest, kvs =>
    (match objFind kvs p with
     | some w => satisfiesJ Sp w
     | none => true) && propsAllSat rest kvs

/-- Some subschema is satisfied. -/
def anySat : SchemaL → JValue → Bool
  | snil, _ => false
  | scons s rest, v => satisfiesJ s v || anySat rest v

/-- How many subschemas are satisfied. -/
def countSat : SchemaL → JValue → Nat
  | snil, _ => 0
  | scons s rest, v => (if satisfiesJ s v then 1 else 0) + countSat rest v

/-- All subschemas are satisfied. -/
def allSat : SchemaL → JValue → Bool
  | snil, _ => true
  | scons s rest, v => satisfiesJ s v && allSat rest v

end

/-! ### The fragment on which validator and specification agree

The validator checks `enum` only under `type: string` and reaches the
compositions only when no recognized `type` keyword is present; when a
composition is checked, later composition keywords are ignored; the
`boolean` branch ignores numeric bounds although a Python `bool` is
numerically comparable.  `schemaWF` carves out the schemas free of those
collisions: `enum` only under `type: string`; numeric bounds not under
`type: boolean`; compositions only without a `type`, at most one of them,
and unaccompanied by any other keyword. -/

mutual

/-- The agreement fragment (see section comment). -/
def schemaWF : Schema → Bool
  | .mk stype minL maxL pat enumV mn mx minI maxI items props req addP anyS oneS allS =>
    wfOpt items && wfProps props && wfOptL anyS && wfOptL oneS && wfOptL allS &&
    (match stype with
     | some tString =>
       anyS == absentL && oneS == absentL && allS == absentL
     | some tNumber =>
       enumV.isNone && anyS == absentL && oneS == absentL && allS == absentL
     | some tInteger =>
       enumV.isNone && anyS == absentL && oneS == absentL && allS == absentL
     | some tBoolean =>
       enumV.isNone && mn.isNone && mx.isNone &&
         anyS == absentL && oneS == absentL && allS == absentL
     | some tArray =>
       enumV.isNone && anyS == absentL && oneS == absentL && allS == absentL
     | some tObject =>
       enumV.isNone && anyS == absentL && oneS == absentL && allS == absentL
     | some tNull =>
       enumV.isNone && anyS == absentL && oneS == absentL && allS == absentL
     | none =>
       minL.isNone && maxL.isNone && pat.isNone && enumV.isNone && mn.isNone &&
       mx.isNone && minI.isNone && maxI.isNone && items == noneS &&
       props == pnil && req.isEmpty && addP.isNone &&
       (match anyS, oneS, allS with
        | presentL _, absentL, absentL => true
        | absentL, presentL _, absentL => true
        | absentL, absentL, presentL _ => true
        | absentL, absentL, absentL => true
        | _, _, _ => false))

/-- Fragment membership for an optional subschema. -/
def wfOpt : OptSchema → Bool
  | noneS => true
  | someS s => schemaWF s

/-- Fragment membership for a properties map. -/
def wfProps : PropL → Bool
  | pnil => true
  | pcons _ s rest => schemaWF s && wfProps rest

/-- Fragment membership for an optional subschema list. -/
def wfOptL : OptSchemaL → Bool
  | absentL => true
  | presentL ss => wfList ss

/-- Fragment membership for a subschema list. -/
def wfList : SchemaL → Bool
  | snil => true
  | scons s rest => schemaWF s && wfList rest

end

/-! ## Type codec — `src/shared/tools/type_converter.py`,
`TypeConverter.python_to_typescript` / `TypeConverter.typescript_to_python`

`PyValue` is the universe of Python values these converters handle: the
JSON primitives, dicts, lists, tuples, sets, `bytes`, `datetime` (carried
by its isoformat string) and `Decimal` (carried by its literal string).
Floats are embedded as rationals.  Each conversion returns
`Except PyRaise PyValue`: `Except.error` marks exactly the inputs on
which the Python function raises.  `datetime.fromisoformat` and
`Decimal(str)` acceptance, and base64 padding, are embedded as
abbreviated format checks that agree with CPython on the inputs used
here; set iteration order and deduplication are not modelled (a set is
carried as the list of its elements). -/

mutual

inductive PyValue where
  | pNone : PyValue
  | pBool : Bool → PyValue
  | pInt : Int → PyValue
  | pFloat : Rat → PyValue
  | pStr : String → PyValue
  | pList : PArr → PyValue
  | pTuple : PArr → PyValue
  | pSet : PArr → PyValue
  | pDict : PObj → PyValue
  | pBytes : List Nat → PyValue
  | pDatetime : String → PyValue
  | pDecimal : String → PyValue

inductive PArr where
  | qnil : PArr
  | qcons : PyValue → PArr → PArr

inductive PObj where
  | rnil : PObj
  | rcons : String → PyValue → PObj → PObj

end

deriving instance DecidableEq for PyValue, PArr, PObj

open PyValue PArr PObj

/-- The exceptions the codec can raise. -/
inductive PyRaise where
  | valueErr : String → PyRaise
  | typeErr : String → PyRaise
  | attributeErr : String → PyRaise
deriving DecidableEq

/-- Lookup in an embedded Python dict. -/
def pObjFind : PObj → String → Option PyValue
  | rnil, _ => none
  | rcons k0 v0 rest, k => if k0 = k then some v0 else pObjFind rest k

/-- The base64 alphabet character for a 6-bit index. -/
def b64Char (i : Nat) : Char :=
  if i < 26 then Char.ofNat (65 + i)
  else if i < 52 then Char.ofNat (97 + (i - 26))
  else if i < 62 then Char.ofNat (48 + (i - 52))
  else if i = 62 then '+'
  else '/'

/-- `base64.b64encode(bytes).decode('utf-8')`: 3-byte groups to 4
characters, `=`-padded. -/
def b64encode : List Nat → String
  | [] => ""
  | [a] =>
    ⟨[b64Char (a / 4), b64Char (a % 4 * 16), '=', '=']⟩
  | [a, b] =>
    ⟨[b64Char (a / 4), b64Char (a % 4 * 16 + b / 16), b64Char (b % 16 * 4), '=']⟩
  | a :: b :: c :: rest =>
    (⟨[b64Char (a / 4), b64Char (a % 4 * 16 + b / 16),
       b64Char (b % 16 * 4 + c / 64), b64Char (c % 64)]⟩ : String) ++ b64encode rest

/-- Is the character in the base64 alphabet? -/
def isB64Char (c : Char) : Bool :=
  isUpperChar c || isLowerChar c || isDigitChar c || c == '+' || c == '/'

/-- The 6-bit index of a base64 alphabet character. -/
def b64Index (c : Char) : Nat :=
  if isUpperChar c then c.toNat - 65
  else if isLowerChar c then c.toNat - 97 + 26
  else if isDigitChar c then c.toNat - 48 + 52
  else if c == '+' then 62
  else 63

/-- Decode a run of base64 sextets into bytes (full quads, then a legal
2- or 3-sextet tail). -/
def b64quads : List Nat → List Nat
  | a :: b :: c :: d :: rest =>
    (a * 4 + b / 16) :: (b % 16 * 16 + c / 4) :: (c % 4 * 64 + d) :: b64quads rest
  | [a, b] => [a * 4 + b / 16]
  | [a, b, c] => [a * 4 + b / 16, b % 16 * 16 + c / 4]
  | _ => []

/-- `base64.b64decode(s)` with default validation: characters outside the
alphabet are discarded; the remaining sextet count must be a multiple of
four, or leave a 2- or 3-sextet tail covered by `=` padding, else
`binascii.Error` (modelled as `ValueError`, its base class). -/
def b64decodePy (s : String) : Except PyRaise (List Nat) :=
  let cs := s.data.filter isB64Char
  let pads := (s.data.filter (fun c => c == '=')).length
  let r := cs.length % 4
  if r == 0 || (r == 2 && pads ≥ 2) || (r == 3 && pads ≥ 1) then
    Except.ok (b64quads (cs.map b64Index))
  else
    Except.error (PyRaise.valueErr "Invalid base64-encoded string: incorrect padding")

/-- `datetime.fromisoformat` acceptance, abbreviated: a `YYYY-MM-DD` date
head (digits and dashes in the right positions); any tail is accepted.
Agrees with CPython on rejecting the empty and non-date strings used in
the claims. -/
def isoOk (s : String) : Bool :=
  match s.data with
  | y1 :: y2 :: y3 :: y4 :: d1 :: m1 :: m2 :: d2 :: a1 :: a2 :: _ =>
    isDigitChar y1 && isDigitChar y2 && isDigitChar y3 && isDigitChar y4 &&
    d1 == '-' && isDigitChar m1 && isDigitChar m2 &&
    d2 == '-' && isDigitChar a1 && isDigitChar a2
  | _ => false

/-- `Decimal(str)` acceptance, abbreviated: optional sign, nonempty digit
run, optional fraction, optional exponent (NaN/Infinity forms omitted). -/
def decimalOk (s : String) : Bool :=
  let afterSign :=
    match s.data with
    | '+' :: rest => rest
    | '-' :: rest => rest
    | l => l
  let intPart := afterSign.takeWhile isDigitChar
  let afterInt := afterSign.dropWhile isDigitChar
  let afterFrac :=
    match afterInt with
    | '.' :: rest => rest.dropWhile isDigitChar
    | l => l
  let fracDigits :=
    match afterInt with
    | '.' :: rest => rest.takeWhile isDigitChar
    | _ => []
  (!intPart.isEmpty || !fracDigits.isEmpty) &&
  (match afterFrac with
   | [] => true
   | e :: rest =>
     (e == 'e' || e == 'E') &&
     (let expDigits :=
        match rest with
        | '+' :: r2 => r2
        | '-' :: r2 => r2
        | r2 => r2
      !expDigits.isEmpty && expDigits.all isDigitChar))

mutual

/-- Python hashability of an embedded value (`set()` insertion): lists,
dicts and sets are unhashable; a tuple is hashable when its elements
are. -/
def hashableP : PyValue → Bool
  | pList _ => false
  | pDict _ => false
  | pSet _ => false
  | pTuple xs => hashableArr xs
  | _ => true

/-- All elements hashable. -/
def hashableArr : PArr → Bool
  | qnil => true
  | qcons x rest => hashableP x && hashableArr rest

end

/-- All characters of a string as singleton-string values (`set` over a
Python string iterates its characters). -/
def strChars (s : String) : PArr :=
  s.data.foldr (fun c acc => qcons (pStr ⟨[c]⟩) acc) qnil

/-- All keys of a dict as string values (`set` over a dict iterates its
keys). -/
def objKeysArr : PObj → PArr
  | rnil => qnil
  | rcons k _ rest => qcons (pStr k) (objKeysArr rest)

/-- All byte values of a bytes object (`set` over `bytes` iterates ints). -/
def bytesArr : List Nat → PArr
  | [] => qnil
  | b :: rest => qcons (pInt b) (bytesArr rest)

/-- `set(x)` for the values the `set` envelope decoder can receive:
iterables yield their elements (with the hashability check `set`
performs on insertion), non-iterables raise `TypeError`.  Deduplication
and ordering of the resulting set are not modelled. -/
def pySetOf : PyValue → Except PyRaise PArr
  | pList xs => if hashableArr xs then Except.ok xs
      else Except.error (PyRaise.typeErr "unhashable type")
  | pTuple xs => if hashableArr xs then Except.ok xs
      else Except.error (PyRaise.typeErr "unhashable type")
  | pSet xs => if hashableArr xs then Except.ok xs
      else Except.error (PyRaise.typeErr "unhashable type")
  | pStr s => Except.ok (strChars s)
  | pDict kvs => Except.ok (objKeysArr kvs)
  | pBytes bs => Except.ok (bytesArr bs)
  | _ => Except.error (PyRaise.typeErr "object is not iterable")

/-- `bytes(data)` for a list: every element must be an integer (a `bool`
counts) in `0..255`. -/
def pyBytesOfList : PArr → Except PyRaise (List Nat)
  | qnil => Except.ok []
  | qcons x rest =>
    match x with
    | pInt n =>
      if 0 ≤ n && n < 256 then
        (pyBytesOfList rest).map fun bs => n.toNat :: bs
      else Except.error (PyRaise.valueErr "bytes must be in range(0, 256)")
    | pBool b =>
      (pyBytesOfList rest).map fun bs => (if b then 1 else 0) :: bs
    | _ => Except.error (PyRaise.typeErr "an integer is required")

mutual

/-- `TypeConverter.python_to_typescript(value)`: tagged envelopes for
datetimes, sets, bytes and Decimals; the tuple branch converts the tuple
to a list and then calls `setattr(result, '__type__', 'tuple')`, which
raises `AttributeError` on every CPython list; dicts and lists recurse;
remaining primitives are JSON-serializable and pass through. -/
def pythonToTypescript : PyValue → Except PyRaise PyValue
  | pNone => Except.ok pNone
  | pDatetime iso =>
    Except.ok (pDict (rcons "__type__" (pStr "datetime")
      (rcons "isoformat" (pStr iso) rnil)))
  | pSet xs =>
    Except.ok (pDict (rcons "__type__" (pStr "set")
      (rcons "items" (pList xs) rnil)))
  | pBytes bs =>
    Except.ok (pDict (rcons "__type__" (pStr "bytes")
      (rcons "data" (pStr (b64encode bs)) rnil)))
  | pDecimal d =>
    Except.ok (pDict (rcons "__type__" (pStr "Decimal")
      (rcons "value" (pStr d) rnil)))
  | pTuple _ =>
    Except.error (PyRaise.attributeErr "list object has no attribute __type__")
  | pDict kvs => (pythonToTypescriptObj kvs).map pDict
  | pList xs => (pythonToTypescriptArr xs).map pList
  | pBool b => Except.ok (pBool b)
  | pInt n => Except.ok (pInt n)
  | pFloat q => Except.ok (pFloat q)
  | pStr s => Except.ok (pStr s)

/-- Element-wise recursion of `python_to_typescript` over a list. -/
def pythonToTypescriptArr : PArr → Except PyRaise PArr
  | qnil => Except.ok qnil
  | qcons x rest => do
    let x2 ← pythonToTypescript x
    let rest2 ← pythonToTypescriptArr rest
    return qcons x2 rest2

/-- Value-wise recursion of `python_to_typescript` over a dict. -/
def pythonToTypescriptObj : PObj → Except PyRaise PObj
  | rnil => Except.ok rnil
  | rcons k v rest => do
    let v2 ← pythonToTypescript v
    let rest2 ← pythonToTypescriptObj rest
    return rcons k v2 rest2

end

/-- The `datetime` envelope decoder:
`datetime.fromisoformat(value.get('isoformat', ''))` — a missing field
defaults to `''` (rejected), a non-string raises `TypeError`, a
non-ISO string raises `ValueError`. -/
def decodeDatetimeEnv (kvs : PObj) : Except PyRaise PyValue :=
  match pObjFind kvs "isoformat" with
  | some (pStr s) =>
    if isoOk s then Except.ok (pDatetime s)
    else Except.error (PyRaise.valueErr ("Invalid isoformat string: " ++ s))
  | some _ => Except.error (PyRaise.typeErr "fromisoformat: argument must be str")
  | none => Except.error (PyRaise.valueErr "Invalid isoformat string: ")

/-- The `set` envelope decoder: `set(value.get('items', []))`. -/
def decodeSetEnv (kvs : PObj) : Except PyRaise PyValue :=
  match pObjFind kvs "items" with
  | some items => (pySetOf items).map pSet
  | none => Except.ok (pSet qnil)

/-- The `bytes` envelope decoder: a list payload goes through `bytes()`,
a string payload through `base64.b64decode`, anything else degrades to
`bytes()` (empty). -/
def decodeBytesEnv (kvs : PObj) : Except PyRaise PyValue :=
  match pObjFind kvs "data" with
  | some (pList xs) => (pyBytesOfList xs).map pBytes
  | some (pStr s) => (b64decodePy s).map pBytes
  | some _ => Except.ok (pBytes [])
  | none => Except.ok (pBytes [])

/-- The `Decimal` envelope decoder: `Decimal(value.get('value', '0'))` —
strings are parsed, numbers convert, other payloads raise. -/
def decodeDecimalEnv (kvs : PObj) : Except PyRaise PyValue :=
  match pObjFind kvs "value" with
  | some (pStr s) =>
    if decimalOk s then Except.ok (pDecimal s)
    else Except.error (PyRaise.valueErr ("could not convert string to Decimal: " ++ s))
  | some (pInt n) => Except.ok (pDecimal (toString n))
  | some (pBool b) => Except.ok (pDecimal (if b then "1" else "0"))
  | some (pFloat q) => Except.ok (pDecimal (toString q))
  | some _ => Except.error (PyRaise.typeErr "conversion from unsupported type to Decimal")
  | none => Except.ok (pDecimal "0")

mutual

/-- `TypeConverter.typescript_to_python(value)`: a dict carrying a
`__type__` tag decodes the datetime/set/bytes/Decimal envelopes through
the `if type_name == ... elif ...` chain (raising exactly where the
Python constructors raise); a dict with an unrecognized or non-string
tag falls through to the generic dict recursion, so unknown envelopes
degrade to ordinary dicts; lists recurse; everything else passes
through unchanged. -/
def typescriptToPython : PyValue → Except PyRaise PyValue
  | pNone => Except.ok pNone
  | pDict kvs =>
    (match pObjFind kvs "__type__" with
     | some tagv =>
       if tagv == pStr "datetime" then decodeDatetimeEnv kvs
       else if tagv == pStr "set" then decodeSetEnv kvs
       else if tagv == pStr "bytes" then decodeBytesEnv kvs
       else if tagv == pStr "Decimal" then decodeDecimalEnv kvs
       else (typescriptToPythonObj kvs).map pDict
     | none => (typescriptToPythonObj kvs).map pDict)
  | pList xs => (typescriptToPythonArr xs).map pList
  | v => Except.ok v

/-- Element-wise recursion of `typescript_to_python` over a list. -/
def typescriptToPythonArr : PArr → Except PyRaise PArr
  | qnil => Except.ok qnil
  | qcons x rest => do
    let x2 ← typescriptToPython x
    let rest2 ← typescriptToPythonArr rest
    return qcons x2 rest2

/-- Value-wise recursion of `typescript_to_python` over a dict. -/
def typescriptToPythonObj : PObj → Except PyRaise PObj
  | rnil => Except.ok rnil
  | rcons k v rest => do
    let v2 ← typescriptToPython v
    let rest2 ← typescriptToPythonObj rest
    return rcons k v2 rest2

end

/-! ### Totality fragments for the codec -/

mutual

/-- No tuple is reachable through the dict/list recursion of
`python_to_typescript` (tuples inside set/bytes/... envelopes are never
visited and are harmless). -/
def noReachableTuple : PyValue → Bool
  | pTuple _ => false
  | pDict kvs => noReachableTupleObj kvs
  | pList xs => noReachableTupleArr xs
  | _ => true

/-- `noReachableTuple` over list elements. -/
def noReachableTupleArr : PArr → Bool
  | qnil => true
  | qcons x rest => noReachableTuple x && noReachableTupleArr rest

/-- `noReachableTuple` over dict values. -/
def noReachableTupleObj : PObj → Bool
  | rnil => true
  | rcons _ v rest => noReachableTuple v && noReachableTupleObj rest

end

/-- Does the payload of a `set` envelope construct without raising? -/
def setPayloadOk : PyValue → Bool
  | pList xs => hashableArr xs
  | pTuple xs => hashableArr xs
  | pSet xs => hashableArr xs
  | pStr _ => true
  | pDict _ => true
  | pBytes _ => true
  | _ => false

/-- Does the payload of a `bytes` envelope construct without raising? -/
def bytesPayloadOk : PyValue → Bool
  | pList xs => (pyBytesOfList xs).isOk
  | pStr s => (b64decodePy s).isOk
  | _ => true

/-- Does the payload of a `Decimal` envelope construct without raising? -/
def decimalPayloadOk : PyValue → Bool
  | pStr s => decimalOk s
  | pInt _ => true
  | pBool _ => true
  | pFloat _ => true
  | _ => false

/-- Does a `datetime` envelope decode without raising? -/
def datetimeEnvOk (kvs : PObj) : Bool :=
  match pObjFind kvs "isoformat" with
  | some (pStr s) => isoOk s
  | _ => false

/-- Does a `set` envelope decode without raising? -/
def setEnvOk (kvs : PObj) : Bool :=
  match pObjFind kvs "items" with
  | some items => setPayloadOk items
  | none => true

/-- Does a `bytes` envelope decode without raising? -/
def bytesEnvOk (kvs : PObj) : Bool :=
  match pObjFind kvs "data" with
  | some d => bytesPayloadOk d
  | none => true

/-- Does a `Decimal` envelope decode without raising? -/
def decimalEnvOk (kvs : PObj) : Bool :=
  match pObjFind kvs "value" with
  | some d => decimalPayloadOk d
  | none => true

mutual

/-- Every tagged envelope reachable by `typescript_to_python` carries a
well-formed payload. -/
def wfEnvelopes : PyValue → Bool
  | pDict kvs =>
    (match pObjFind kvs "__type__" with
     | some tagv =>
       if tagv == pStr "datetime" then datetimeEnvOk kvs
       else if tagv == pStr "set" then setEnvOk kvs
       else if tagv == pStr "bytes" then bytesEnvOk kvs
       else if tagv == pStr "Decimal" then decimalEnvOk kvs
       else wfEnvelopesObj kvs
     | none => wfEnvelopesObj kvs)
  | pList xs => wfEnvelopesArr xs
  | _ => true

/-- `wfEnvelopes` over list elements. -/
def wfEnvelopesArr : PArr → Bool
  | qnil => true
  | qcons x rest => wfEnvelopes x && wfEnvelopesArr rest

/-- `wfEnvelopes` over dict values. -/
def wfEnvelopesObj : PObj → Bool
  | rnil => true
  | rcons _ v rest => wfEnvelopes v && wfEnvelopesObj rest

end

/-! ## Error classification — `src/shared/tools/error_handler.py`

A raised Python exception is embedded as the observations the handlers
make of it: its `str()`, its class name, the `isinstance` facts the
matchers test, and the optional `code`/`source` attributes.  A
`ToolError`'s `details`/`cause` payloads (debug dictionaries and
tracebacks) are omitted; each handler's `code`, `message` and
`retryable` verdict are kept. -/

structure PyError where
  msg : String
  clsName : String
  isTimeoutError : Bool
  isPermissionError : Bool
  isFileNotFoundError : Bool
  isSyntaxError : Bool
  isImportError : Bool
  attrCode : Option String
  attrSource : Option String
deriving DecidableEq

/-- The `ToolError` surfaced to callers (code, message, retryable). -/
structure ToolErrorT where
  code : String
  message : String
  retryable : Bool
deriving DecidableEq

/-- The slice of `ErrorContext` the handlers read: tool id, language and
`context.timeout` (seconds; the wall-clock start time is omitted). -/
structure ErrCtx where
  toolId : String
  language : String
  timeoutS : Nat
deriving DecidableEq

/-- `TimeoutErrorHandler.can_handle`. -/
def timeoutCanHandle (e : PyError) : Bool :=
  strContains (pyLower e.msg) "timeout" || e.isTimeoutError ||
    e.attrCode == some "ETIMEDOUT"

/-- `ValidationErrorHandler.can_handle`. -/
def validationCanHandle (e : PyError) : Bool :=
  e.clsName == "ValidationError" || strContains (pyLower e.msg) "validation" ||
    strContains (pyLower e.msg) "invalid parameters"

/-- `TypeScriptExecutionErrorHandler.can_handle`. -/
def typescriptCanHandle (e : PyError) : Bool :=
  strContains (pyLower e.msg) "typescript" || e.attrSource == some "typescript" ||
    e.attrCode == some "TYPESCRIPT_EXECUTION_ERROR"

/-- `PermissionErrorHandler.can_handle`. -/
def permissionCanHandle (e : PyError) : Bool :=
  e.isPermissionError || strContains (pyLower e.msg) "permission denied" ||
    strContains (pyLower e.msg) "access denied"

/-- `ResourceErrorHandler.can_handle`. -/
def resourceCanHandle (e : PyError) : Bool :=
  e.isFileNotFoundError || strContains (pyLower e.msg) "not found" ||
    strContains (pyLower e.msg) "does not exist"

/-- `TimeoutErrorHandler.handle`. -/
def timeoutHandle (_ : PyError) (c : ErrCtx) : ToolErrorT :=
  ⟨"TOOL_TIMEOUT", "Tool execution timed out after " ++ toString c.timeoutS ++ "s", true⟩

/-- `ValidationErrorHandler.handle`. -/
def validationHandle (_ : PyError) (_ : ErrCtx) : ToolErrorT :=
  ⟨"VALIDATION_ERROR", "Parameter validation failed", false⟩

/-- `TypeScriptExecutionErrorHandler._is_retryable`: recognized transient
network substrings. -/
def tsRetryable (e : PyError) : Bool :=
  strContains (pyLower e.msg) "econnrefused" || strContains (pyLower e.msg) "enotfound" ||
    strContains (pyLower e.msg) "etimedout"

/-- `TypeScriptExecutionErrorHandler.handle`. -/
def typescriptHandle (e : PyError) (_ : ErrCtx) : ToolErrorT :=
  ⟨"TYPESCRIPT_EXECUTION_ERROR",
    if e.msg == "" then "TypeScript tool execution failed" else e.msg, tsRetryable e⟩

/-- `PermissionErrorHandler.handle`. -/
def permissionHandle (_ : PyError) (_ : ErrCtx) : ToolErrorT :=
  ⟨"PERMISSION_DENIED", "Permission denied for tool execution", false⟩

/-- `ResourceErrorHandler.handle`. -/
def resourceHandle (_ : PyError) (_ : ErrCtx) : ToolErrorT :=
  ⟨"RESOURCE_NOT_FOUND", "Required resource not found", false⟩

/-- `PythonExecutionErrorHandler._is_retryable`: syntax/import errors are
final, connection/timeout/temporary messages are retryable. -/
def pyRetryable (e : PyError) : Bool :=
  if e.isSyntaxError || e.isImportError then false
  else
    strContains (pyLower e.msg) "connection" || strContains (pyLower e.msg) "timeout" ||
      strContains (pyLower e.msg) "temporary"

/-- `PythonExecutionErrorHandler.handle`. -/
def pythonHandle (e : PyError) (_ : ErrCtx) : ToolErrorT :=
  ⟨"PYTHON_EXECUTION_ERROR",
    if e.msg == "" then "Python tool execution failed" else e.msg, pyRetryable e⟩

/-- `DefaultErrorHandler.handle`. -/
def defaultHandle (e : PyError) (_ : ErrCtx) : ToolErrorT :=
  ⟨"UNKNOWN_ERROR", if e.msg == "" then "An unknown error occurred" else e.msg, false⟩

/-- The handler classes of the middleware. -/
inductive HTag where
  | timeoutH : HTag
  | validationH : HTag
  | typescriptH : HTag
  | permissionH : HTag
  | resourceH : HTag
  | pythonH : HTag
  | defaultH : HTag
deriving DecidableEq

/-- `ErrorHandlingMiddleware.__init__`: the ordered handler list
(`PythonExecutionErrorHandler` acts as a catch-all for Python errors;
`DefaultErrorHandler` must be last). -/
def middlewareHandlers : List HTag :=
  [HTag.timeoutH, HTag.validationH, HTag.typescriptH, HTag.permissionH,
   HTag.resourceH, HTag.pythonH, HTag.defaultH]

/-- Dispatch of `can_handle` over the handler classes
(`PythonExecutionErrorHandler.can_handle` and
`DefaultErrorHandler.can_handle` both return `True` unconditionally). -/
def canHandle : HTag → PyError → Bool
  | HTag.timeoutH, e => timeoutCanHandle e
  | HTag.validationH, e => validationCanHandle e
  | HTag.typescriptH, e => typescriptCanHandle e
  | HTag.permissionH, e => permissionCanHandle e
  | HTag.resourceH, e => resourceCanHandle e
  | HTag.pythonH, _ => true
  | HTag.defaultH, _ => true

/-- Dispatch of `handle` over the handler classes. -/
def handleWith : HTag → PyError → ErrCtx → ToolErrorT
  | HTag.timeoutH, e, c => timeoutHandle e c
  | HTag.validationH, e, c => validationHandle e c
  | HTag.typescriptH, e, c => typescriptHandle e c
  | HTag.permissionH, e, c => permissionHandle e c
  | HTag.resourceH, e, c => resourceHandle e c
  | HTag.pythonH, e, c => pythonHandle e c
  | HTag.defaultH, e, c => defaultHandle e c

/-- `next(h for h in self.handlers if h.can_handle(error))` followed by
`handler.handle(...)`: the first matching handler classifies the error
(`none` would model a `StopIteration`, proven unreachable). -/
def classifyError (e : PyError) (c : ErrCtx) : Option ToolErrorT :=
  (middlewareHandlers.find? (fun h => canHandle h e)).map fun h => handleWith h e c

/-- `ToolExecutionStatus` (`src/shared/types/python/tool.py`). -/
inductive ToolExecutionStatus where
  | success : ToolExecutionStatus
  | error : ToolExecutionStatus
  | timeout : ToolExecutionStatus
  | cancelled : ToolExecutionStatus
deriving DecidableEq

/-- The `ToolExecutionResult` surfaced to callers (execution id and
wall-clock performance block omitted). -/
structure ToolExecutionResultT where
  toolId : String
  status : ToolExecutionStatus
  output : Option String
  error : Option ToolErrorT
deriving DecidableEq

/-- `ErrorHandlingMiddleware.handle_error`: classify, then wrap in a
`ToolExecutionResult` whose status is always `ERROR`. -/
def handleError (e : PyError) (c : ErrCtx) : ToolExecutionResultT :=
  { toolId := c.toolId, status := ToolExecutionStatus.error, output := none,
    error := classifyError e c }

/-! ## Execution bridge — `src/protocol/python/bridge.py`

`ExecutionBridge` state is the request counter, the pending-request
table and the running flag.  The wire request ids are `str(request_id)`
of a monotonically increasing counter; they are embedded by the counter
value itself (`str` is injective on the naturals).  The outcome of the
awaited handler / peer response is an explicit oracle argument, and
`ToolRegistry.get` / `ToolRegistry.validate_parameters` (whose
validation defers to the external `jsonschema` package) enter as
function parameters. -/

/-- A raised exception at the bridge boundary. -/
inductive PyExc where
  | valueError : String → PyExc
  | timeoutError : String → PyExc
  | other : String → String → PyExc
deriving DecidableEq

/-- The `ToolResult` dataclass (`output`, with `metadata`/`diagnostics`
omitted: no claim reads them). -/
structure ToolResultP where
  output : String
deriving DecidableEq

/-- The `ToolContext` slice the bridge reads: ids and `timeout`
(seconds, embedded as a natural number). -/
structure ToolContextP where
  sessionId : String
  messageId : String
  timeoutS : Nat
deriving DecidableEq

/-- How the awaited local handler behaves under `asyncio.wait_for`:
returns in time, raises, or overruns the timeout. -/
inductive HandlerOutcome where
  | completes : ToolResultP → HandlerOutcome
  | raises : PyExc → HandlerOutcome
  | never : HandlerOutcome
deriving DecidableEq

/-- A JSON-RPC response envelope: a `result` or an `error` member. -/
inductive RpcResponse where
  | resultResp : ToolResultP → RpcResponse
  | errorResp : String → RpcResponse
deriving DecidableEq

/-- How the awaited peer behaves: the reader delivers the matching
response in time, or nothing arrives within `context.timeout`. -/
inductive TsOutcome where
  | responds : RpcResponse → TsOutcome
  | never : TsOutcome
deriving DecidableEq

/-- Association-list lookup for the generic key types. -/
def alFind [DecidableEq κ] : List (κ × α) → κ → Option α
  | [], _ => none
  | (k0, v0) :: rest, k => if k0 = k then some v0 else alFind rest k

/-- CPython dict assignment: existing key keeps its position and gets the
new value, new key is appended. -/
def alAssign [DecidableEq κ] : List (κ × α) → κ → α → List (κ × α)
  | [], k, v => [(k, v)]
  | (k0, v0) :: rest, k, v =>
    if k0 = k then (k0, v) :: rest else (k0, v0) :: alAssign rest k v

/-- `dict.pop(key, None)` / `del dict[key]` on an association list with
unique keys. -/
def alRemove [DecidableEq κ] (l : List (κ × α)) (k : κ) : List (κ × α) :=
  l.filter fun p => p.1 ≠ k

/-- `ExecutionBridge` state: `request_id` counter, `pending_requests`
(request id to future token), `running` flag. -/
structure BridgeState where
  requestId : Nat
  pending : List (Nat × Nat)
  running : Bool
deriving DecidableEq

/-- `ExecutionBridge.__init__`. -/
def bridgeInit : BridgeState := ⟨0, [], false⟩

/-- `ExecutionBridge._execute_python(tool_id, parameters, context)`:
unknown tool and invalid parameters raise `ValueError`; the handler runs
under `asyncio.wait_for(..., timeout=context.timeout)`, whose overrun is
re-raised as `TimeoutError`; any exception the handler itself raises
propagates (only `asyncio.TimeoutError` is caught). -/
def executePython (getTool : String → Option Unit)
    (validatePs : String → JValue → Bool × List String)
    (run : HandlerOutcome) (toolId : String) (params : JValue) (ctx : ToolContextP) :
    Except PyExc ToolResultP :=
  match getTool toolId with
  | none => Except.error (PyExc.valueError ("Python tool " ++ toolId ++ " not found"))
  | some _ =>
    let vr := validatePs toolId params
    if !vr.1 then
      Except.error (PyExc.valueError ("Invalid parameters: " ++ String.intercalate ", " vr.2))
    else
      match run with
      | HandlerOutcome.completes r => Except.ok r
      | HandlerOutcome.raises e => Except.error e
      | HandlerOutcome.never =>
        Except.error (PyExc.timeoutError
          ("Tool execution timed out after " ++ toString ctx.timeoutS ++ "s"))

/-- `ExecutionBridge._execute_typescript(tool_id, parameters, context)`:
allocate the next request id, insert a PendingCall, send, and await the
future with `context.timeout`; a delivered response was popped by
`_handle_response` (an `error` member re-raises as `ValueError`); on
`asyncio.TimeoutError` the entry is popped and `TimeoutError` raised. -/
def executeTypescript (st : BridgeState) (outcome : TsOutcome) (ctx : ToolContextP) :
    Except PyExc ToolResultP × BridgeState :=
  let rid := st.requestId
  let st1 : BridgeState :=
    { requestId := st.requestId + 1, pending := alAssign st.pending rid rid,
      running := st.running }
  match outcome with
  | TsOutcome.responds resp =>
    let st2 : BridgeState := { st1 with pending := alRemove st1.pending rid }
    match resp with
    | RpcResponse.errorResp m => (Except.error (PyExc.valueError m), st2)
    | RpcResponse.resultResp r => (Except.ok r, st2)
  | TsOutcome.never =>
    let st2 : BridgeState := { st1 with pending := alRemove st1.pending rid }
    (Except.error (PyExc.timeoutError
      ("TypeScript tool execution timed out after " ++ toString ctx.timeoutS ++ "s")), st2)

/-- `ExecutionBridge.execute(tool_id, language, parameters, context)`:
dispatch on the language. -/
def executeBridge (getTool : String → Option Unit)
    (validatePs : String → JValue → Bool × List String)
    (run : HandlerOutcome) (st : BridgeState) (outcome : TsOutcome)
    (toolId : String) (language : String) (params : JValue) (ctx : ToolContextP) :
    Except PyExc ToolResultP × BridgeState :=
  if language == "python" then
    (executePython getTool validatePs run toolId params ctx, st)
  else
    executeTypescript st outcome ctx

/-! ### PendingCall bookkeeping steps (for the table invariants)

The four events that touch `pending_requests` in the cited code:
the send of `_execute_typescript`, the pop of `_handle_response`, the
pop of the timeout branch, and `shutdown` (which flips `running`, sends
a shutdown envelope and waits for process exit — it never touches
`pending_requests`). -/

/-- The send half of `_execute_typescript`: allocate id, insert entry. -/
def sendStep (st : BridgeState) : BridgeState :=
  { requestId := st.requestId + 1, pending := alAssign st.pending st.requestId st.requestId,
    running := st.running }

/-- `_handle_response`: pop the entry for the response id. -/
def responseStep (st : BridgeState) (rid : Nat) : BridgeState :=
  { st with pending := alRemove st.pending rid }

/-- The timeout branch of `_execute_typescript`: pop the entry. -/
def timeoutStep (st : BridgeState) (rid : Nat) : BridgeState :=
  { st with pending := alRemove st.pending rid }

/-- `ExecutionBridge.shutdown`: `running = False`, send the shutdown
envelope, wait/terminate/kill the process; `pending_requests` is left
untouched. -/
def shutdownStep (st : BridgeState) : BridgeState :=
  { st with running := false }

/-- The pending-table invariant: unique request ids, all below the
counter. -/
def pendingInv (st : BridgeState) : Bool :=
  decide (st.pending.map Prod.fst).Nodup && st.pending.all fun p => p.1 < st.requestId

/-- `PythonTypeScriptAdapter.call_typescript_tool`: an unregistered id
raises `ValueError` before the `try` block; inside it, a successful
bridge result becomes a `ToolExecutionResult` with status `SUCCESS`, and
any exception becomes one with status `ERROR` carrying a
`TYPESCRIPT_EXECUTION_ERROR` `ToolError` (the source feeds the whole
result object to the string-level `camel_to_snake`; the conversion is
embedded on the result's output string, and either way the `try` block
only ever yields a typed result). -/
def callTypescriptTool (registered : Bool) (st : BridgeState) (outcome : TsOutcome)
    (toolId : String) (ctx : ToolContextP) :
    Except PyExc ToolExecutionResultT × BridgeState :=
  if !registered then
    (Except.error (PyExc.valueError ("TypeScript tool " ++ toolId ++ " not found")), st)
  else
    match executeTypescript st outcome ctx with
    | (Except.ok r, st2) =>
      (Except.ok ⟨toolId, ToolExecutionStatus.success, some (camelToSnake r.output), none⟩,
        st2)
    | (Except.error e, st2) =>
      (Except.ok ⟨toolId, ToolExecutionStatus.error, none,
        some ⟨"TYPESCRIPT_EXECUTION_ERROR",
          (match e with
           | PyExc.valueError m => m
           | PyExc.timeoutError m => m
           | PyExc.other _ m => m), false⟩⟩, st2)

/-! ## Unified tool registry — `src/shared/tools/registry.py`

`UnifiedToolRegistry.tools` is a dict from tool id to a per-language
dict of registrations; a registration is collapsed to its `Tool` (the
handler/source/module fields play no role in the claims). -/

/-- The `Tool` slice the registry claims read: id, language, name. -/
structure ToolT where
  id : String
  lang : String
  name : String
deriving DecidableEq

/-- The registry state: tool id to per-language map, both in insertion
order. -/
abbrev RegState : Type := List (String × List (String × ToolT))

/-- `UnifiedToolRegistry.register(tool, handler)`: fetch (or create) the
per-language map, assign the language, store the map back. -/
def regRegister (st : RegState) (t : ToolT) : RegState :=
  let m := (alFind st t.id).getD []
  alAssign st t.id (alAssign m t.lang t)

/-- `UnifiedToolRegistry.unregister(tool_id, language)`: with a language,
drop that language and drop the id if its map became empty; without a
language, drop the whole id. -/
def regUnregister (st : RegState) (toolId : String) (lang : Option String) : RegState :=
  match lang with
  | some l =>
    match alFind st toolId with
    | none => st
    | some m =>
      if (alFind m l).isSome then
        let m2 := alRemove m l
        if m2.isEmpty then alRemove st toolId else alAssign st toolId m2
      else st
  | none => alRemove st toolId

/-- `UnifiedToolRegistry.get(tool_id, language)`: missing or empty map
gives `None`; with a language, that registration; without one,
`next(iter(language_map.values()), None)` — the first registration in
insertion order. -/
def regGet (st : RegState) (toolId : String) (lang : Option String) : Option ToolT :=
  match alFind st toolId with
  | none => none
  | some m =>
    if m.isEmpty then none
    else
      match lang with
      | some l => alFind m l
      | none => m.head?.map Prod.snd

/-- A register/unregister event. -/
inductive RegOp where
  | opReg : ToolT → RegOp
  | opUnreg : String → Option String → RegOp
deriving DecidableEq

/-- Apply a sequence of registry events from the left. -/
def applyOps : RegState → List RegOp → RegState
  | st, [] => st
  | st, RegOp.opReg t :: rest => applyOps (regRegister st t) rest
  | st, RegOp.opUnreg toolId lang :: rest => applyOps (regUnregister st toolId lang) rest

/-- The registry invariant: unique tool ids, and no id maps to an empty
per-language map (whose keys are unique too). -/
def regInv (st : RegState) : Bool :=
  decide (st.map Prod.fst).Nodup &&
    st.all fun p => !p.2.isEmpty && decide (p.2.map Prod.fst).Nodup

/-- `ToolProtocol.execute_tool`'s language auto-detection
(`src/protocol/python/protocol.py`): prefer Python when both runtimes
provide the id, raise `ValueError` when neither does. -/
def detectLanguage (toolId : String) (pyTool tsTool : Option ToolT) : Except PyExc String :=
  match pyTool, tsTool with
  | some _, none => Except.ok "python"
  | none, some _ => Except.ok "typescript"
  | some _, some _ => Except.ok "python"
  | none, none => Except.error (PyExc.valueError ("Tool " ++ toolId ++ " not found"))

/-! ## Concrete instances used by the claim theorems -/

/-- The schema `type: integer, enum: [1, 2]`. -/
def schemaIntEnum : Schema :=
  Schema.mk (some tInteger) none none none (some (acons (jInt 1) (acons (jInt 2) anil)))
    none none none none noneS pnil [] none absentL absentL absentL

/-- The schema `type: object, required: [a, b]`. -/
def schemaReqAB : Schema :=
  Schema.mk (some tObject) none none none none none none none none noneS pnil
    ["a", "b"] none absentL absentL absentL

/-- The schema `type: string, minLength: 2, maxLength: 5, pattern: ab,
enum: [abc]` (inside the agreement fragment). -/
def schemaStrFull : Schema :=
  Schema.mk (some tString) (some 2) (some 5) (some "ab")
    (some (acons (jStr "abc") anil)) none none none none noneS pnil [] none
    absentL absentL absentL

/-- A spec-modelled collector for the `required` constraint: every missing
required property (the claim says the validator reports them all). -/
def missingRequired (req : List String) (kvs : JObj) : List String :=
  req.filter fun r => !objHasKey kvs r

/-- A `RuntimeError` with message `boom`: it matches none of the named
matchers. -/
def errBoom : PyError :=
  ⟨"boom", "RuntimeError", false, false, false, false, false, none, none⟩

/-- The `TimeoutError` the bridge timeout path raises. -/
def errTimeout : PyError :=
  ⟨"Tool execution timed out after 100s", "TimeoutError", true, false, false, false,
    false, none, none⟩

/-- An error-handling context for the `echo` tool. -/
def ctxEcho : ErrCtx := ⟨"echo", "python", 100⟩

/-- A tool context with a 100-second timeout. -/
def toolCtx100 : ToolContextP := ⟨"session", "message", 100⟩

/-- An `echo` tool registered by the TypeScript runtime. -/
def tsEcho : ToolT := ⟨"echo", "typescript", "echo"⟩

/-- An `echo` tool registered by the Python runtime. -/
def pyEcho : ToolT := ⟨"echo", "python", "echo"⟩

/-! ### Identity lemmas for the case converter on lowercase keys -/

theorem lower_not_upper {c : Char} (h : (isLowerChar c || isDigitChar c) = true) :
    isUpperChar c = false := by
  simp only [isLowerChar, isDigitChar, isUpperChar, Bool.or_eq_true, Bool.and_eq_true,
    decide_eq_true_eq, Bool.and_eq_false_iff, decide_eq_false_iff_not, not_le] at h ⊢
  omega

theorem lower_not_underscore {c : Char} (h : (isLowerChar c || isDigitChar c) = true) :
    (c == '_') = false := by
  rw [beq_eq_false_iff_ne]
  intro he
  subst he
  exact absurd h (by decide)

theorem pyLowerChar_fix {c : Char} (h : isUpperChar c = false) : pyLowerChar c = c := by
  simp [pyLowerChar, h]

theorem camelSub1Go_noUpper :
    ∀ (fuel : Nat) (l : List Char), (∀ c ∈ l, isUpperChar c = false) →
      camelSub1Go fuel l = l
  | 0, _, _ => rfl
  | _ + 1, [], _ => rfl
  | _ + 1, [_], _ => rfl
  | _ + 1, [_, _], _ => rfl
  | fuel + 1, c :: u :: l :: rest2, h => by
    have hu : isUpperChar u = false := h u (by simp)
    have ih := camelSub1Go_noUpper fuel (u :: l :: rest2)
      (fun x hx => h x (List.mem_cons_of_mem _ hx))
    simp [camelSub1Go, hu, ih]

theorem camelSub2_noUpper :
    ∀ (l : List Char), (∀ c ∈ l, isUpperChar c = false) → camelSub2 l = l
  | [], _ => rfl
  | [_], _ => rfl
  | a :: b :: rest2, h => by
    have hb : isUpperChar b = false := h b (by simp)
    have ih := camelSub2_noUpper (b :: rest2) (fun x hx => h x (List.mem_cons_of_mem _ hx))
    simp [camelSub2, hb, ih]

theorem map_pyLowerChar_fix :
    ∀ (l : List Char), (∀ c ∈ l, isUpperChar c = false) → l.map pyLowerChar = l
  | [], _ => rfl
  | c :: rest, h => by
    have := pyLowerChar_fix (h c (by simp))
    have ih := map_pyLowerChar_fix rest (fun x hx => h x (List.mem_cons_of_mem _ hx))
    simp [this, ih]

/-- On a key of lowercase letters and digits `camel_to_snake` is the identity. -/
theorem camelToSnake_id (s : String) (h : lowerAlnumKey s = true) : camelToSnake s = s := by
  have hall : ∀ c ∈ s.data, isUpperChar c = false := by
    intro c hc
    have h2 : (isLowerChar c || isDigitChar c) = true := by
      simp only [lowerAlnumKey, List.all_eq_true] at h
      exact h c hc
    exact lower_not_upper h2
  unfold camelToSnake camelSub1
  rw [camelSub1Go_noUpper _ _ hall, camelSub2_noUpper _ hall, map_pyLowerChar_fix _ hall]

theorem splitUnderscore_noUnderscore :
    ∀ (l : List Char), (∀ c ∈ l, (c == '_') = false) → splitUnderscore l = [l]
  | [], _ => rfl
  | c :: rest, h => by
    have ih := splitUnderscore_noUnderscore rest (fun x hx => h x (List.mem_cons_of_mem _ hx))
    have hc : (c == '_') = false := h c (by simp)
    simp [splitUnderscore, ih, hc]

/-- On a key of lowercase letters and digits `snake_to_camel` is the identity. -/
theorem snakeToCamel_id (s : String) (h : lowerAlnumKey s = true) : snakeToCamel s = s := by
  have hall : ∀ c ∈ s.data, (c == '_') = false := by
    intro c hc
    have h2 : (isLowerChar c || isDigitChar c) = true := by
      simp only [lowerAlnumKey, List.all_eq_true] at h
      exact h c hc
    exact lower_not_underscore h2
  unfold snakeToCamel
  rw [splitUnderscore_noUnderscore _ hall]
  simp only [List.map_nil, List.flatten_nil, List.append_nil]

/-! ### The rebuilt dict equals the original when conversion fixes the keys -/

theorem objApp_onil_right : ∀ (a : JObj), objApp a onil = a
  | onil => rfl
  | ocons _ _ rest => by simp [objApp, objApp_onil_right rest]

theorem objApp_assoc : ∀ (a b c : JObj), objApp (objApp a b) c = objApp a (objApp b c)
  | onil, _, _ => rfl
  | ocons _ _ rest, b, c => by simp [objApp, objApp_assoc rest b c]

theorem objKeys_objApp : ∀ (a b : JObj), objKeys (objApp a b) = objKeys a ++ objKeys b
  | onil, _ => rfl
  | ocons _ _ rest, b => by simp [objApp, objKeys, objKeys_objApp rest b]

theorem objAssign_fresh :
    ∀ (acc : JObj) (k : String) (v : JValue), k ∉ objKeys acc →
      objAssign acc k v = objApp acc (ocons k v onil)
  | onil, _, _, _ => rfl
  | ocons k0 v0 rest, k, v, h => by
    have hne : k0 ≠ k := by
      intro he
      exact h (he ▸ List.mem_cons_self _ _)
    have hrest : k ∉ objKeys rest := fun hm => h (List.mem_cons_of_mem _ hm)
    simp [objAssign, objApp, hne, objAssign_fresh rest k v hrest]

theorem objCat_eq_objApp :
    ∀ (kvs acc : JObj), (objKeys acc ++ objKeys kvs).Nodup → objCat acc kvs = objApp acc kvs
  | onil, acc, _ => (objApp_onil_right acc).symm
  | ocons k v rest, acc, h => by
    have hfresh : k ∉ objKeys acc := by
      have := (List.nodup_append.mp (by simpa [objKeys] using h)).2.2
      intro hm
      exact this hm (List.mem_cons_self _ _)
    have h2 : (objKeys (objApp acc (ocons k v onil)) ++ objKeys rest).Nodup := by
      simpa [objKeys_objApp, objKeys, List.append_assoc] using h
    calc objCat acc (ocons k v rest)
        = objCat (objAssign acc k v) rest := rfl
      _ = objCat (objApp acc (ocons k v onil)) rest := by rw [objAssign_fresh acc k v hfresh]
      _ = objApp (objApp acc (ocons k v onil)) rest := objCat_eq_objApp rest _ h2
      _ = objApp acc (ocons k v rest) := by rw [objApp_assoc]; rfl

/-! ### The key converters fix every lowercase-alphanumeric tree -/

mutual

theorem keysToSnakeCase_fix : ∀ (v : JValue), lowerAlnumTree v = true → keysToSnakeCase v = v
  | jNull, _ => rfl
  | jBool _, _ => rfl
  | jInt _, _ => rfl
  | jFloat _, _ => rfl
  | jStr _, _ => rfl
  | jList xs, h => by
    have hx : lowerAlnumArr xs = true := by simpa [lowerAlnumTree] using h
    simp [keysToSnakeCase, keysToSnakeArr_fix xs hx]
  | jDict kvs, h => by
    have hp : (objKeys kvs).Nodup ∧ lowerAlnumObj kvs = true := by
      simpa [lowerAlnumTree] using h
    have e1 : keysToSnakeObj kvs onil = objCat onil kvs := keysToSnakeObj_cat kvs hp.2 onil
    have e2 : objCat onil kvs = objApp onil kvs :=
      objCat_eq_objApp kvs onil (by simpa [objKeys] using hp.1)
    simp [keysToSnakeCase, e1, e2, objApp]

theorem keysToSnakeArr_fix : ∀ (xs : JArr), lowerAlnumArr xs = true → keysToSnakeArr xs = xs
  | anil, _ => rfl
  | acons v rest, h => by
    have hp : lowerAlnumTree v = true ∧ lowerAlnumArr rest = true := by
      simpa [lowerAlnumArr] using h
    simp [keysToSnakeArr, keysToSnakeCase_fix v hp.1, keysToSnakeArr_fix rest hp.2]

theorem keysToSnakeObj_cat :
    ∀ (kvs : JObj), lowerAlnumObj kvs = true → ∀ acc, keysToSnakeObj kvs acc = objCat acc kvs
  | onil, _, _ => rfl
  | ocons k v rest, h, acc => by
    have hp : lowerAlnumKey k = true ∧ lowerAlnumTree v = true ∧ lowerAlnumObj rest = true := by
      simpa [lowerAlnumObj, and_assoc] using h
    have e1 : camelToSnake k = k := camelToSnake_id k hp.1
    have e2 : keysToSnakeCase v = v := keysToSnakeCase_fix v hp.2.1
    simp [keysToSnakeObj, objCat, e1, e2, keysToSnakeObj_cat rest hp.2.2]

end

mutual

theorem keysToCamelCase_fix : ∀ (v : JValue), lowerAlnumTree v = true → keysToCamelCase v = v
  | jNull, _ => rfl
  | jBool _, _ => rfl
  | jInt _, _ => rfl
  | jFloat _, _ => rfl
  | jStr _, _ => rfl
  | jList xs, h => by
    have hx : lowerAlnumArr xs = true := by simpa [lowerAlnumTree] using h
    simp [keysToCamelCase, keysToCamelArr_fix xs hx]
  | jDict kvs, h => by
    have hp : (objKeys kvs).Nodup ∧ lowerAlnumObj kvs = true := by
      simpa [lowerAlnumTree] using h
    have e1 : keysToCamelObj kvs onil = objCat onil kvs := keysToCamelObj_cat kvs hp.2 onil
    have e2 : objCat onil kvs = objApp onil kvs :=
      objCat_eq_objApp kvs onil (by simpa [objKeys] using hp.1)
    simp [keysToCamelCase, e1, e2, objApp]

theorem keysToCamelArr_fix : ∀ (xs : JArr), lowerAlnumArr xs = true → keysToCamelArr xs = xs
  | anil, _ => rfl
  | acons v rest, h => by
    have hp : lowerAlnumTree v = true ∧ lowerAlnumArr rest = true := by
      simpa [lowerAlnumArr] using h
    simp [keysToCamelArr, keysToCamelCase_fix v hp.1, keysToCamelArr_fix rest hp.2]

theorem keysToCamelObj_cat :
    ∀ (kvs : JObj), lowerAlnumObj kvs = true → ∀ acc, keysToCamelObj kvs acc = objCat acc kvs
  | onil, _, _ => rfl
  | ocons k v rest, h, acc => by
    have hp : lowerAlnumKey k = true ∧ lowerAlnumTree v = true ∧ lowerAlnumObj rest = true := by
      simpa [lowerAlnumObj, and_assoc] using h
    have e1 : snakeToCamel k = k := snakeToCamel_id k hp.1
    have e2 : keysToCamelCase v = v := keysToCamelCase_fix v hp.2.1
    simp [keysToCamelObj, objCat, e1, e2, keysToCamelObj_cat rest hp.2.2]

end

end OpenCodeBridge

namespace OpenCodeBridge

open JValue JArr JObj SType Schema OptSchema PropL OptSchemaL SchemaL PyValue PArr PObj

/-! ### Association-list lemmas (dict assignment / removal / lookup) -/

theorem alFind_assign_self [DecidableEq κ] :
    ∀ (l : List (κ × α)) (k : κ) (v : α), alFind (alAssign l k v) k = some v
  | [], k, v => by simp [alAssign, alFind]
  | (k0, v0) :: rest, k, v => by
    by_cases h : k0 = k
    · simp [alAssign, alFind, h]
    · simp [alAssign, alFind, h, alFind_assign_self rest k v]

theorem alFind_remove_self [DecidableEq κ] (l : List (κ × α)) (k : κ) :
    alFind (alRemove l k) k = none := by
  induction l with
  | nil => rfl
  | cons p rest ih =>
    obtain ⟨k0, v0⟩ := p
    by_cases h : k0 = k
    · simpa [alRemove, List.filter_cons, h] using ih
    · simpa [alRemove, alFind, List.filter_cons, h] using ih

theorem mem_of_mem_alRemove [DecidableEq κ] {l : List (κ × α)} {k : κ} {p : κ × α}
    (h : p ∈ alRemove l k) : p ∈ l :=
  List.mem_of_mem_filter h

theorem keys_alRemove_sublist [DecidableEq κ] (l : List (κ × α)) (k : κ) :
    ((alRemove l k).map Prod.fst).Sublist (l.map Prod.fst) :=
  (List.filter_sublist l).map Prod.fst

theorem mem_alAssign [DecidableEq κ] :
    ∀ {l : List (κ × α)} {k : κ} {v : α} {p : κ × α},
      p ∈ alAssign l k v → p ∈ l ∨ p = (k, v)
  | [], k, v, p, h => by
    simp [alAssign] at h
    exact Or.inr h
  | (k0, v0) :: rest, k, v, p, h => by
    by_cases hk : k0 = k
    · simp only [alAssign, if_pos hk, List.mem_cons] at h
      rcases h with h | h
      · exact Or.inr (by rw [h, hk])
      · exact Or.inl (List.mem_cons_of_mem _ h)
    · simp only [alAssign, if_neg hk, List.mem_cons] at h
      rcases h with h | h
      · exact Or.inl (by rw [h]; exact List.mem_cons_self _ _)
      · rcases mem_alAssign h with h2 | h2
        · exact Or.inl (List.mem_cons_of_mem _ h2)
        · exact Or.inr h2

theorem alAssign_keys [DecidableEq κ] :
    ∀ (l : List (κ × α)) (k : κ) (v : α),
      (alAssign l k v).map Prod.fst =
        if k ∈ l.map Prod.fst then l.map Prod.fst else l.map Prod.fst ++ [k]
  | [], k, v => by simp [alAssign]
  | (k0, v0) :: rest, k, v => by
    by_cases h : k0 = k
    · simp [alAssign, h]
    · have hne : ¬k = k0 := fun he => h he.symm
      simp only [alAssign, if_neg h, List.map_cons, alAssign_keys rest k v]
      by_cases hm : k ∈ rest.map Prod.fst
      · simp [hm, hne]
      · simp [hm, hne]

theorem alAssign_ne_nil [DecidableEq κ] (l : List (κ × α)) (k : κ) (v : α) :
    alAssign l k v ≠ [] := by
  cases l with
  | nil => simp [alAssign]
  | cons p rest =>
    obtain ⟨k0, v0⟩ := p
    by_cases h : k0 = k <;> simp [alAssign, h]

theorem alFind_some_mem [DecidableEq κ] :
    ∀ {l : List (κ × α)} {k : κ} {v : α}, alFind l k = some v → (k, v) ∈ l
  | [], _, _, h => by simp [alFind] at h
  | (k0, v0) :: rest, k, v, h => by
    by_cases hk : k0 = k
    · simp only [alFind, if_pos hk] at h
      subst hk
      injection h with h
      rw [h]
      exact List.mem_cons_self _ _
    · simp only [alFind, if_neg hk] at h
      exact List.mem_cons_of_mem _ (alFind_some_mem h)

theorem key_mem_of_all_lt {l : List (Nat × Nat)} {n : Nat}
    (hall : l.all (fun p => p.1 < n) = true) : n ∉ l.map Prod.fst := by
  intro hmem
  obtain ⟨p, hp, hfst⟩ := List.mem_map.mp hmem
  have := (List.all_eq_true.mp hall) p hp
  simp only [decide_eq_true_eq] at this
  omega

end OpenCodeBridge

namespace OpenCodeBridge

open JValue JArr JObj SType Schema OptSchema PropL OptSchemaL SchemaL PyValue PArr PObj

/-! ## Claim C4 — error classification fallback -/

/-- C4, as stated, is false: an exception matching none of the timeout,
validation, peer-execution, permission-denied or resource-not-found
matchers is classified by `PythonExecutionErrorHandler` — whose
`can_handle` always returns `True` and which precedes
`DefaultErrorHandler` in the ordered list — so it receives code
`PYTHON_EXECUTION_ERROR`, not `UNKNOWN_ERROR`.  Concretely,
`RuntimeError("boom")` matches none of the five named matchers yet is
classified as `PYTHON_EXECUTION_ERROR`. -/
theorem C4_counterexample :
    timeoutCanHandle errBoom = false ∧ validationCanHandle errBoom = false ∧
    typescriptCanHandle errBoom = false ∧ permissionCanHandle errBoom = false ∧
    resourceCanHandle errBoom = false ∧
    (classifyError errBoom ctxEcho).map ToolErrorT.code = some "PYTHON_EXECUTION_ERROR" ∧
    (classifyError errBoom ctxEcho).map ToolErrorT.code ≠ some "UNKNOWN_ERROR" := by
  decide

/-- C4 (amended): an exception matching none of the timeout, validation,
peer-execution, permission-denied or resource-not-found matchers is
classified as `PYTHON_EXECUTION_ERROR` with
`PythonExecutionErrorHandler`'s retryability verdict (`UNKNOWN_ERROR`
is unreachable because that handler always matches); classification
still never fails to produce a `ToolError`, and `DefaultErrorHandler`
is indeed last in the list with an always-true matcher. -/
theorem C4_python_catch_all (e : PyError) (c : ErrCtx)
    (h1 : timeoutCanHandle e = false) (h2 : validationCanHandle e = false)
    (h3 : typescriptCanHandle e = false) (h4 : permissionCanHandle e = false)
    (h5 : resourceCanHandle e = false) :
    classifyError e c = some (pythonHandle e c) ∧
    (classifyError e c).map ToolErrorT.code = some "PYTHON_EXECUTION_ERROR" ∧
    (classifyError e c).map ToolErrorT.retryable = some (pyRetryable e) ∧
    (∀ e2 : PyError, (classifyError e2 c).isSome) ∧
    middlewareHandlers.getLast? = some HTag.defaultH ∧
    (∀ e2 : PyError, canHandle HTag.defaultH e2 = true) := by
  have hfind : classifyError e c = some (pythonHandle e c) := by
    simp [classifyError, middlewareHandlers, List.find?, canHandle, h1, h2, h3, h4, h5,
      handleWith]
  refine ⟨hfind, by simp [hfind, pythonHandle], by simp [hfind, pythonHandle], ?_,
    by decide, fun _ => rfl⟩
  intro e2
  have hex : ∃ x, x ∈ middlewareHandlers ∧ canHandle x e2 = true :=
    ⟨HTag.pythonH, by simp [middlewareHandlers], rfl⟩
  have hsome := List.find?_isSome.mpr hex
  obtain ⟨x, hx⟩ := Option.isSome_iff_exists.mp hsome
  simp [classifyError, hx]

/-- Witness for `C4_python_catch_all` at `RuntimeError("boom")`. -/
theorem C4_python_catch_all_witness :
    classifyError errBoom ctxEcho = some (pythonHandle errBoom ctxEcho) ∧
    (classifyError errBoom ctxEcho).map ToolErrorT.code = some "PYTHON_EXECUTION_ERROR" := by
  have h := C4_python_catch_all errBoom ctxEcho (by decide) (by decide) (by decide)
    (by decide) (by decide)
  exact ⟨h.1, h.2.1⟩

/-! ## Claim C5 — pending-table lifecycle -/

/-- C5, as stated, is false on the shutdown clause: `shutdown()` flips
`running`, writes the shutdown envelope and waits for the process, but
never touches `pending_requests`, so an entry inserted by a send is
still present after shutdown rather than being removed by it. -/
theorem C5_counterexample :
    (shutdownStep (sendStep bridgeInit)).pending = [(0, 0)] ∧
    alFind (shutdownStep (sendStep bridgeInit)).pending 0 = some 0 := by
  decide

/-- C5 (amended): the pending table holds at most one entry per request
id (ids are unique and below the counter, and every step preserves
this), a send inserts its fresh entry, and response arrival and timeout
each remove the entry atomically with their outcome — but shutdown
leaves the table unchanged, so entries still pending at shutdown are
never removed. -/
theorem C5_pending_lifecycle (st : BridgeState) (rid : Nat)
    (hinv : pendingInv st = true) :
    pendingInv (sendStep st) = true ∧
    alFind (sendStep st).pending st.requestId = some st.requestId ∧
    pendingInv (responseStep st rid) = true ∧
    alFind (responseStep st rid).pending rid = none ∧
    pendingInv (timeoutStep st rid) = true ∧
    alFind (timeoutStep st rid).pending rid = none ∧
    (shutdownStep st).pending = st.pending := by
  have hparts : (st.pending.map Prod.fst).Nodup ∧ ∀ p ∈ st.pending, p.1 < st.requestId := by
    have h1 := hinv
    simp only [pendingInv, Bool.and_eq_true, decide_eq_true_eq, List.all_eq_true] at h1
    exact h1
  obtain ⟨hnd, hall⟩ := hparts
  have hfresh : st.requestId ∉ st.pending.map Prod.fst := by
    intro hmem
    obtain ⟨p, hp, hfst⟩ := List.mem_map.mp hmem
    have := hall p hp
    omega
  refine ⟨?_, ?_, ?_, ?_, ?_, ?_, rfl⟩
  · -- send: keys stay unique, all ids below the bumped counter
    simp only [pendingInv, sendStep, Bool.and_eq_true, decide_eq_true_eq, List.all_eq_true]
    constructor
    · rw [alAssign_keys, if_neg hfresh]
      simp only [List.nodup_append, List.nodup_cons, List.not_mem_nil, not_false_iff,
        List.nodup_nil, and_true, true_and]
      exact ⟨hnd, fun a ha hb => hfresh (by simp at hb; rwa [hb] at ha)⟩
    · intro p hp
      rcases mem_alAssign hp with h | h
      · have h2 := hall p h
        omega
      · simp [h]
  · exact alFind_assign_self st.pending st.requestId st.requestId
  · simp only [pendingInv, responseStep, Bool.and_eq_true, decide_eq_true_eq,
      List.all_eq_true]
    refine ⟨(keys_alRemove_sublist st.pending rid).nodup hnd, ?_⟩
    intro p hp
    exact hall p (mem_of_mem_alRemove hp)
  · exact alFind_remove_self st.pending rid
  · simp only [pendingInv, timeoutStep, Bool.and_eq_true, decide_eq_true_eq,
      List.all_eq_true]
    refine ⟨(keys_alRemove_sublist st.pending rid).nodup hnd, ?_⟩
    intro p hp
    exact hall p (mem_of_mem_alRemove hp)
  · exact alFind_remove_self st.pending rid

/-- Witness for `C5_pending_lifecycle` at the state holding one
in-flight request. -/
theorem C5_pending_lifecycle_witness :
    pendingInv (sendStep (sendStep bridgeInit)) = true ∧
    alFind (responseStep (sendStep bridgeInit) 0).pending 0 = none ∧
    (shutdownStep (sendStep bridgeInit)).pending = (sendStep bridgeInit).pending := by
  have h := C5_pending_lifecycle (sendStep bridgeInit) 0 (by decide)
  exact ⟨h.1, h.2.2.2.1, h.2.2.2.2.2.2⟩

end OpenCodeBridge

namespace OpenCodeBridge

open JValue JArr JObj PyValue PArr PObj

/-! ### Registry invariant lemmas -/

theorem alAssign_keys_nodup [DecidableEq κ] {l : List (κ × α)} (k : κ) (v : α)
    (h : (l.map Prod.fst).Nodup) : ((alAssign l k v).map Prod.fst).Nodup := by
  rw [alAssign_keys]
  by_cases hm : k ∈ l.map Prod.fst
  · rwa [if_pos hm]
  · rw [if_neg hm]
    simp only [List.nodup_append, List.nodup_cons, List.not_mem_nil, not_false_iff,
      List.nodup_nil, and_true, true_and]
    exact ⟨h, fun a ha hb => hm (by simp at hb; rwa [hb] at ha)⟩

theorem regInv_parts {st : RegState} (h : regInv st = true) :
    (st.map Prod.fst).Nodup ∧ ∀ p ∈ st, p.2 ≠ [] ∧ (p.2.map Prod.fst).Nodup := by
  simp only [regInv, Bool.and_eq_true, decide_eq_true_eq, List.all_eq_true] at h
  refine ⟨h.1, fun p hp => ?_⟩
  have h2 := h.2 p hp
  simp only [Bool.and_eq_true, Bool.not_eq_true', decide_eq_true_eq] at h2
  refine ⟨fun he => ?_, h2.2⟩
  rw [he] at h2
  simp at h2

theorem regInv_build {st : RegState}
    (h1 : (st.map Prod.fst).Nodup)
    (h2 : ∀ p ∈ st, p.2 ≠ [] ∧ (p.2.map Prod.fst).Nodup) :
    regInv st = true := by
  simp only [regInv, Bool.and_eq_true, decide_eq_true_eq, List.all_eq_true]
  refine ⟨h1, fun p hp => ?_⟩
  have h3 := h2 p hp
  simp only [Bool.and_eq_true, Bool.not_eq_true', decide_eq_true_eq]
  refine ⟨?_, h3.2⟩
  cases hp2 : p.2 with
  | nil => exact absurd hp2 h3.1
  | cons q rest => simp [hp2]

theorem regInv_register {st : RegState} (t : ToolT) (h : regInv st = true) :
    regInv (regRegister st t) = true := by
  obtain ⟨hnd, hent⟩ := regInv_parts h
  apply regInv_build
  · exact alAssign_keys_nodup t.id _ hnd
  · intro p hp
    rcases mem_alAssign hp with hold | heq
    · exact hent p hold
    · rw [heq]
      refine ⟨alAssign_ne_nil _ _ _, ?_⟩
    -- the inner map came from a prior entry (whose keys are unique) or is fresh
      cases hfind : alFind st t.id with
      | none => simp [hfind, alAssign_keys_nodup]
      | some m0 =>
        have hm0 := hent (t.id, m0) (alFind_some_mem hfind)
        simpa [hfind] using alAssign_keys_nodup t.lang t hm0.2

theorem regInv_unregister {st : RegState} (toolId : String) (lang : Option String)
    (h : regInv st = true) : regInv (regUnregister st toolId lang) = true := by
  obtain ⟨hnd, hent⟩ := regInv_parts h
  cases lang with
  | none =>
    apply regInv_build
    · exact (keys_alRemove_sublist st toolId).nodup hnd
    · exact fun p hp => hent p (mem_of_mem_alRemove hp)
  | some l =>
    cases hfind : alFind st toolId with
    | none => simpa [regUnregister, hfind] using h
    | some m =>
      have hm := hent (toolId, m) (alFind_some_mem hfind)
      by_cases hin : (alFind m l).isSome
      · by_cases hemp : (alRemove m l).isEmpty
        · rw [regUnregister]
          simp only [hfind, hin, hemp, if_true]
          apply regInv_build
          · exact (keys_alRemove_sublist st toolId).nodup hnd
          · exact fun p hp => hent p (mem_of_mem_alRemove hp)
        · rw [regUnregister]
          simp only [hfind, hin, hemp, if_true, if_false]
          apply regInv_build
          · exact alAssign_keys_nodup toolId _ hnd
          · intro p hp
            rcases mem_alAssign hp with hold | heq
            · exact hent p hold
            · rw [heq]
              refine ⟨fun he => hemp ?_, (keys_alRemove_sublist m l).nodup hm.2⟩
              have he2 : alRemove m l = [] := he
              rw [he2]
              rfl
      · rw [regUnregister]
        simp only [hfind, hin, if_false]
        exact h

theorem regInv_applyOps : ∀ (ops : List RegOp) (st : RegState),
    regInv st = true → regInv (applyOps st ops) = true
  | [], _, h => h
  | RegOp.opReg t :: rest, _, h =>
    regInv_applyOps rest _ (regInv_register t h)
  | RegOp.opUnreg toolId lang :: rest, _, h =>
    regInv_applyOps rest _ (regInv_unregister toolId lang h)

theorem regGet_isSome_of_inv {st : RegState} (h : regInv st = true) (toolId : String) :
    (regGet st toolId none).isSome = (alFind st toolId).isSome := by
  obtain ⟨_, hent⟩ := regInv_parts h
  cases hfind : alFind st toolId with
  | none => simp [regGet, hfind]
  | some m =>
    have hm := hent (toolId, m) (alFind_some_mem hfind)
    cases hm2 : m with
    | nil => exact absurd hm2 hm.1
    | cons q rest => simp [regGet, hfind, hm2]

/-! ## Claim C10 — no empty per-language maps -/

/-- C10: starting from the empty registry, every sequence of `register`
and `unregister` operations maintains the invariant that no tool id maps
to an empty per-language map (ids and per-id languages stay unique), and
therefore `get(tool_id)` without a language returns a `Tool` exactly
when `tool_id` is a key of the map.  `unregister`'s language branch
deletes the id itself when the last language is removed, and `register`
always stores a nonempty map, which is what keeps the invariant. -/
theorem C10_registry_invariant (ops : List RegOp) :
    regInv (applyOps ([] : RegState) ops) = true ∧
    ∀ toolId,
      (regGet (applyOps ([] : RegState) ops) toolId none).isSome =
        (alFind (applyOps ([] : RegState) ops) toolId).isSome := by
  have hinv := regInv_applyOps ops [] (by decide)
  exact ⟨hinv, fun toolId => regGet_isSome_of_inv hinv toolId⟩

/-! ## Claim C9 — tie-break of `get` without a runtime -/

/-- C9, as stated, is false: `UnifiedToolRegistry.get` without a language
returns `next(iter(language_map.values()), None)` — the first
registration in dict insertion order, not the Python one.  Registering
the TypeScript `echo` first and the Python `echo` second makes the
language-less `get` return the TypeScript registration. -/
theorem C9_counterexample :
    regGet (regRegister (regRegister ([] : RegState) tsEcho) pyEcho) "echo" none =
      some tsEcho ∧
    tsEcho.lang = "typescript" ∧ tsEcho ≠ pyEcho := by
  decide

/-- C9 (amended): `get` without a language deterministically returns the
registration of whichever runtime registered the id first (dict
insertion order), regardless of which runtime that is; the prefer-Python
tie-break exists one layer up, in `ToolProtocol.execute_tool`'s language
auto-detection, which picks `python` whenever both runtimes provide the
id. -/
theorem C9_first_registration_wins (t1 t2 : ToolT)
    (hid : t1.id = t2.id) (hlang : t1.lang ≠ t2.lang) :
    regGet (regRegister (regRegister ([] : RegState) t1) t2) t1.id none = some t1 ∧
    ∀ (toolId : String) (py ts : ToolT),
      detectLanguage toolId (some py) (some ts) = Except.ok "python" := by
  refine ⟨?_, fun _ _ _ => rfl⟩
  simp [regRegister, regGet, alFind, alAssign, hid, hlang]

/-- Witness for `C9_first_registration_wins` at the two `echo`
registrations. -/
theorem C9_first_registration_wins_witness :
    regGet (regRegister (regRegister ([] : RegState) tsEcho) pyEcho) tsEcho.id none =
      some tsEcho := by
  exact (C9_first_registration_wins tsEcho pyEcho rfl (by decide)).1

/-! ## Claim C1 — no raw exception across the execute boundary -/

/-- C1, as stated, is false: `ExecutionBridge.execute` surfaces failures
by raising.  With an empty registry, `execute("missing_tool", "python",
...)` raises `ValueError` out of `_execute_python` instead of returning
a `ToolExecutionResult` carrying a `ToolError`. -/
theorem C1_counterexample :
    (executeBridge (fun _ => none) (fun _ _ => (true, []))
        (HandlerOutcome.completes ⟨""⟩) bridgeInit TsOutcome.never
        "missing_tool" "python" (jDict onil) toolCtx100).1 =
      Except.error (PyExc.valueError "Python tool missing_tool not found") := rfl

/-- C1 (amended): `ExecutionBridge.execute` raises rather than wrapping —
unknown tools and invalid parameters raise `ValueError`, overruns raise
`TimeoutError`, and a peer `error` envelope re-raises as `ValueError`
(only a handler's own exception escapes this taxonomy).  The typed
boundary lives one layer up: for a registered tool,
`PythonTypeScriptAdapter.call_typescript_tool` always returns a
`ToolExecutionResult` — success, or status `error` with a
`TYPESCRIPT_EXECUTION_ERROR` `ToolError` — while an unregistered id
again raises a raw `ValueError` before its `try` block. -/
theorem C1_exceptions_at_bridge_boundary
    (getTool : String → Option Unit) (validatePs : String → JValue → Bool × List String)
    (run : HandlerOutcome) (st : BridgeState) (outcome : TsOutcome)
    (toolId language : String) (params : JValue) (ctx : ToolContextP)
    (hrun : ∀ e, run ≠ HandlerOutcome.raises e) :
    ((∃ r, (executeBridge getTool validatePs run st outcome toolId language params ctx).1 =
        Except.ok r) ∨
     (∃ m, (executeBridge getTool validatePs run st outcome toolId language params ctx).1 =
        Except.error (PyExc.valueError m)) ∨
     (∃ m, (executeBridge getTool validatePs run st outcome toolId language params ctx).1 =
        Except.error (PyExc.timeoutError m))) ∧
    (∃ r, (callTypescriptTool true st outcome toolId ctx).1 = Except.ok r ∧
      (r.status = ToolExecutionStatus.success ∧ r.error = none ∨
       r.status = ToolExecutionStatus.error ∧
         ∃ te, r.error = some te ∧ te.code = "TYPESCRIPT_EXECUTION_ERROR")) ∧
    (callTypescriptTool false st outcome toolId ctx).1 =
      Except.error (PyExc.valueError ("TypeScript tool " ++ toolId ++ " not found")) := by
  refine ⟨?_, ?_, rfl⟩
  · by_cases hl : language == "python"
    · simp only [executeBridge, hl, if_true]
      unfold executePython
      cases getTool toolId with
      | none => exact Or.inr (Or.inl ⟨_, rfl⟩)
      | some u =>
        by_cases hv : (validatePs toolId params).1
        · cases hrunc : run with
          | completes r => simp [hv, hrunc]
          | raises e => exact absurd hrunc (hrun e)
          | never => simp [hv, hrunc]
        · simp only [hv, Bool.not_false, if_true]
          exact Or.inr (Or.inl ⟨_, rfl⟩)
    · simp only [executeBridge, hl, if_false]
      unfold executeTypescript
      cases outcome with
      | responds resp =>
        cases resp with
        | errorResp m => exact Or.inr (Or.inl ⟨m, rfl⟩)
        | resultResp r => exact Or.inl ⟨r, rfl⟩
      | never => exact Or.inr (Or.inr ⟨_, rfl⟩)
  · rw [callTypescriptTool]
    simp only [Bool.not_true, if_false]
    unfold executeTypescript
    cases outcome with
    | responds resp =>
      cases resp with
      | errorResp m => exact ⟨_, rfl, Or.inr ⟨rfl, _, rfl, rfl⟩⟩
      | resultResp r => exact ⟨_, rfl, Or.inl ⟨rfl, rfl⟩⟩
    | never => exact ⟨_, rfl, Or.inr ⟨rfl, _, rfl, rfl⟩⟩

/-- Witness for `C1_exceptions_at_bridge_boundary` at a call that runs a
completing handler. -/
theorem C1_exceptions_at_bridge_boundary_witness :
    (∃ r, (executeBridge (fun _ => some ()) (fun _ _ => (true, []))
        (HandlerOutcome.completes ⟨"hi"⟩) bridgeInit TsOutcome.never
        "echo" "python" (jDict onil) toolCtx100).1 = Except.ok r) ∨
    (∃ m, (executeBridge (fun _ => some ()) (fun _ _ => (true, []))
        (HandlerOutcome.completes ⟨"hi"⟩) bridgeInit TsOutcome.never
        "echo" "python" (jDict onil) toolCtx100).1 =
      Except.error (PyExc.valueError m)) ∨
    (∃ m, (executeBridge (fun _ => some ()) (fun _ _ => (true, []))
        (HandlerOutcome.completes ⟨"hi"⟩) bridgeInit TsOutcome.never
        "echo" "python" (jDict onil) toolCtx100).1 =
      Except.error (PyExc.timeoutError m)) := by
  exact (C1_exceptions_at_bridge_boundary (fun _ => some ()) (fun _ _ => (true, []))
    (HandlerOutcome.completes ⟨"hi"⟩) bridgeInit TsOutcome.never
    "echo" "python" (jDict onil) toolCtx100 (fun e h => by cases h)).1

/-! ## Claim C6 — timeout surfacing and pending cleanup -/

/-- C6, as stated, is false on the status clause: a 100-second overrun of
the peer raises `TimeoutError` out of `_execute_typescript` (no
`ToolExecutionResult` at all), and `ErrorHandlingMiddleware.handle_error`
then wraps it with status `"error"` — status `"timeout"` is never
produced.  The PendingCall removal half does hold. -/
theorem C6_counterexample :
    (executeTypescript (sendStep bridgeInit) TsOutcome.never toolCtx100).1 =
      Except.error (PyExc.timeoutError
        "TypeScript tool execution timed out after 100s") ∧
    (handleError errTimeout ctxEcho).status = ToolExecutionStatus.error ∧
    ToolExecutionStatus.error ≠ ToolExecutionStatus.timeout := by
  exact ⟨rfl, by decide, by decide⟩

/-- C6 (amended): a peer that never responds within `context.timeout`
makes `_execute_typescript` raise `TimeoutError` (not return a partial
result) and removes the call's PendingCall from the pending table; the
middleware then converts that exception into a `ToolExecutionResult`
with status `"error"` carrying the retryable `TOOL_TIMEOUT` `ToolError`
— status is never `"timeout"`. -/
theorem C6_timeout_behavior (st : BridgeState) (ctx : ToolContextP)
    (e : PyError) (c : ErrCtx) (he : timeoutCanHandle e = true) :
    (executeTypescript st TsOutcome.never ctx).1 =
      Except.error (PyExc.timeoutError
        ("TypeScript tool execution timed out after " ++ toString ctx.timeoutS ++ "s")) ∧
    alFind (executeTypescript st TsOutcome.never ctx).2.pending st.requestId = none ∧
    (handleError e c).status = ToolExecutionStatus.error ∧
    (handleError e c).error = some ⟨"TOOL_TIMEOUT",
      "Tool execution timed out after " ++ toString c.timeoutS ++ "s", true⟩ := by
  refine ⟨rfl, ?_, rfl, ?_⟩
  · exact alFind_remove_self _ _
  · simp [handleError, classifyError, middlewareHandlers, List.find?, canHandle, he,
      handleWith, timeoutHandle]

/-- Witness for `C6_timeout_behavior` at the one-in-flight state and the
raised bridge `TimeoutError`. -/
theorem C6_timeout_behavior_witness :
    alFind (executeTypescript (sendStep bridgeInit) TsOutcome.never
        toolCtx100).2.pending (sendStep bridgeInit).requestId = none ∧
    (handleError errTimeout ctxEcho).error = some ⟨"TOOL_TIMEOUT",
      "Tool execution timed out after 100s", true⟩ := by
  have h := C6_timeout_behavior (sendStep bridgeInit) toolCtx100 errTimeout ctxEcho
    (by decide)
  exact ⟨h.2.1, h.2.2.2⟩

end OpenCodeBridge

namespace OpenCodeBridge

open JValue JArr JObj

/-! ## Claim C2 — case-conversion round trip -/

/-- C2, as stated, is false: for the alphanumeric key `aB`,
`keys_to_camel_case` is the identity (no underscore to split on), but
`keys_to_snake_case` then rewrites the key to `a_b`, so
`keys_to_snake_case(keys_to_camel_case(x)) ≠ x` — the conversion pair is
not its own inverse on arbitrary letters-and-digits keys. -/
theorem C2_counterexample :
    alnumKey "aB" = true ∧
    keysToSnakeCase (keysToCamelCase (jDict (ocons "aB" jNull onil))) ≠
      jDict (ocons "aB" jNull onil) := by
  decide

/-- C2 (amended): on trees whose dict keys consist of lowercase letters
and digits (the fixed points of both conversions), both compositions
are the identity: `keys_to_snake_case(keys_to_camel_case(x)) == x` and
`keys_to_camel_case(keys_to_snake_case(x)) == x`.  Mixed-case keys are
instead normalized (`aB` becomes `a_b`), breaking the round trip in the
snake-after-camel direction. -/
theorem C2_roundtrip_on_lower (v : JValue) (h : lowerAlnumTree v = true) :
    keysToSnakeCase (keysToCamelCase v) = v ∧
    keysToCamelCase (keysToSnakeCase v) = v := by
  constructor
  · rw [keysToCamelCase_fix v h]
    exact keysToSnakeCase_fix v h
  · rw [keysToSnakeCase_fix v h]
    exact keysToCamelCase_fix v h

/-- Witness for `C2_roundtrip_on_lower` at a nested tree with
lowercase-alphanumeric keys. -/
theorem C2_roundtrip_on_lower_witness :
    keysToSnakeCase (keysToCamelCase
      (jDict (ocons "user1" (jList (acons (jDict (ocons "k2" (jStr "V") onil)) anil))
        (ocons "data" jNull onil)))) =
      jDict (ocons "user1" (jList (acons (jDict (ocons "k2" (jStr "V") onil)) anil))
        (ocons "data" jNull onil)) := by
  exact (C2_roundtrip_on_lower _ (by decide)).1

end OpenCodeBridge

namespace OpenCodeBridge

open PyValue PArr PObj

/-! ### Codec totality lemmas -/

theorem pySetOf_ok (items : PyValue) (h : setPayloadOk items = true) :
    ∃ ws, pySetOf items = Except.ok ws := by
  cases items <;> simp_all [setPayloadOk, pySetOf]

theorem decodeDatetime_ok (kvs : PObj) (h : datetimeEnvOk kvs = true) :
    ∃ w, decodeDatetimeEnv kvs = Except.ok w := by
  unfold datetimeEnvOk at h
  unfold decodeDatetimeEnv
  cases hf : pObjFind kvs "isoformat" with
  | none => rw [hf] at h; simp at h
  | some d =>
    rw [hf] at h
    cases d <;> simp_all

theorem decodeSet_ok (kvs : PObj) (h : setEnvOk kvs = true) :
    ∃ w, decodeSetEnv kvs = Except.ok w := by
  unfold setEnvOk at h
  unfold decodeSetEnv
  cases hf : pObjFind kvs "items" with
  | none => exact ⟨_, rfl⟩
  | some items =>
    rw [hf] at h
    obtain ⟨ws, hws⟩ := pySetOf_ok items h
    exact ⟨pSet ws, by simp [hws, Except.map]⟩

theorem decodeBytes_ok (kvs : PObj) (h : bytesEnvOk kvs = true) :
    ∃ w, decodeBytesEnv kvs = Except.ok w := by
  unfold bytesEnvOk at h
  unfold decodeBytesEnv
  cases hf : pObjFind kvs "data" with
  | none => exact ⟨_, rfl⟩
  | some d =>
    rw [hf] at h
    cases d with
    | pList xs =>
      simp only [bytesPayloadOk] at h
      cases hb : pyBytesOfList xs with
      | ok bs => exact ⟨pBytes bs, by simp [hb, Except.map]⟩
      | error e => rw [hb] at h; simp [Except.isOk, Except.toBool] at h
    | pStr s =>
      simp only [bytesPayloadOk] at h
      cases hb : b64decodePy s with
      | ok bs => exact ⟨pBytes bs, by simp [hb, Except.map]⟩
      | error e => rw [hb] at h; simp [Except.isOk, Except.toBool] at h
    | pNone => exact ⟨_, rfl⟩
    | pBool b => exact ⟨_, rfl⟩
    | pInt n => exact ⟨_, rfl⟩
    | pFloat q => exact ⟨_, rfl⟩
    | pTuple xs => exact ⟨_, rfl⟩
    | pSet xs => exact ⟨_, rfl⟩
    | pDict m => exact ⟨_, rfl⟩
    | pBytes bs => exact ⟨_, rfl⟩
    | pDatetime s => exact ⟨_, rfl⟩
    | pDecimal s => exact ⟨_, rfl⟩

theorem decodeDecimal_ok (kvs : PObj) (h : decimalEnvOk kvs = true) :
    ∃ w, decodeDecimalEnv kvs = Except.ok w := by
  unfold decimalEnvOk at h
  unfold decodeDecimalEnv
  cases hf : pObjFind kvs "value" with
  | none => exact ⟨_, rfl⟩
  | some d =>
    rw [hf] at h
    cases d <;> simp_all [decimalPayloadOk]

mutual

theorem py2ts_total : ∀ (v : PyValue), noReachableTuple v = true →
    ∃ w, pythonToTypescript v = Except.ok w
  | pNone, _ => ⟨_, rfl⟩
  | pBool b, _ => ⟨_, rfl⟩
  | pInt n, _ => ⟨_, rfl⟩
  | pFloat q, _ => ⟨_, rfl⟩
  | pStr s, _ => ⟨_, rfl⟩
  | pBytes bs, _ => ⟨_, rfl⟩
  | pDatetime iso, _ => ⟨_, rfl⟩
  | pDecimal d, _ => ⟨_, rfl⟩
  | pSet xs, _ => ⟨_, rfl⟩
  | pTuple xs, h => by simp [noReachableTuple] at h
  | pList xs, h => by
    obtain ⟨ws, hws⟩ := py2tsArr_total xs (by simpa [noReachableTuple] using h)
    exact ⟨pList ws, by simp [pythonToTypescript, hws, Except.map]⟩
  | pDict kvs, h => by
    obtain ⟨ws, hws⟩ := py2tsObj_total kvs (by simpa [noReachableTuple] using h)
    exact ⟨pDict ws, by simp [pythonToTypescript, hws, Except.map]⟩

theorem py2tsArr_total : ∀ (xs : PArr), noReachableTupleArr xs = true →
    ∃ ws, pythonToTypescriptArr xs = Except.ok ws
  | qnil, _ => ⟨_, rfl⟩
  | qcons x rest, h => by
    have hp : noReachableTuple x = true ∧ noReachableTupleArr rest = true := by
      simpa [noReachableTupleArr] using h
    obtain ⟨w, hw⟩ := py2ts_total x hp.1
    obtain ⟨ws, hws⟩ := py2tsArr_total rest hp.2
    exact ⟨qcons w ws, by simp only [pythonToTypescriptArr, hw, hws]; rfl⟩

theorem py2tsObj_total : ∀ (kvs : PObj), noReachableTupleObj kvs = true →
    ∃ ws, pythonToTypescriptObj kvs = Except.ok ws
  | rnil, _ => ⟨_, rfl⟩
  | rcons k v rest, h => by
    have hp : noReachableTuple v = true ∧ noReachableTupleObj rest = true := by
      simpa [noReachableTupleObj] using h
    obtain ⟨w, hw⟩ := py2ts_total v hp.1
    obtain ⟨ws, hws⟩ := py2tsObj_total rest hp.2
    exact ⟨rcons k w ws, by simp only [pythonToTypescriptObj, hw, hws]; rfl⟩

end

mutual

theorem ts2py_total : ∀ (v : PyValue), wfEnvelopes v = true →
    ∃ w, typescriptToPython v = Except.ok w
  | pNone, _ => ⟨_, rfl⟩
  | pBool b, _ => ⟨_, rfl⟩
  | pInt n, _ => ⟨_, rfl⟩
  | pFloat q, _ => ⟨_, rfl⟩
  | pStr s, _ => ⟨_, rfl⟩
  | pBytes bs, _ => ⟨_, rfl⟩
  | pDatetime iso, _ => ⟨_, rfl⟩
  | pDecimal d, _ => ⟨_, rfl⟩
  | pSet xs, _ => ⟨_, rfl⟩
  | pTuple xs, _ => ⟨_, rfl⟩
  | pList xs, h => by
    obtain ⟨ws, hws⟩ := ts2pyArr_total xs (by simpa [wfEnvelopes] using h)
    exact ⟨pList ws, by simp [typescriptToPython, hws, Except.map]⟩
  | pDict kvs, h => by
    simp only [wfEnvelopes] at h
    simp only [typescriptToPython]
    cases htag : pObjFind kvs "__type__" with
    | none =>
      simp only [htag] at h ⊢
      obtain ⟨ws, hws⟩ := ts2pyObj_total kvs h
      exact ⟨pDict ws, by simp [hws, Except.map]⟩
    | some tagv =>
      simp only [htag] at h ⊢
      by_cases h1 : tagv == pStr "datetime"
      · simp only [h1, if_true] at h ⊢
        exact decodeDatetime_ok kvs h
      · simp only [h1, Bool.false_eq_true, if_false] at h ⊢
        by_cases h2 : tagv == pStr "set"
        · simp only [h2, if_true] at h ⊢
          exact decodeSet_ok kvs h
        · simp only [h2, Bool.false_eq_true, if_false] at h ⊢
          by_cases h3 : tagv == pStr "bytes"
          · simp only [h3, if_true] at h ⊢
            exact decodeBytes_ok kvs h
          · simp only [h3, Bool.false_eq_true, if_false] at h ⊢
            by_cases h4 : tagv == pStr "Decimal"
            · simp only [h4, if_true] at h ⊢
              exact decodeDecimal_ok kvs h
            · simp only [h4, Bool.false_eq_true, if_false] at h ⊢
              obtain ⟨ws, hws⟩ := ts2pyObj_total kvs h
              exact ⟨pDict ws, by simp [hws, Except.map]⟩

theorem ts2pyArr_total : ∀ (xs : PArr), wfEnvelopesArr xs = true →
    ∃ ws, typescriptToPythonArr xs = Except.ok ws
  | qnil, _ => ⟨_, rfl⟩
  | qcons x rest, h => by
    have hp : wfEnvelopes x = true ∧ wfEnvelopesArr rest = true := by
      simpa [wfEnvelopesArr] using h
    obtain ⟨w, hw⟩ := ts2py_total x hp.1
    obtain ⟨ws, hws⟩ := ts2pyArr_total rest hp.2
    exact ⟨qcons w ws, by simp only [typescriptToPythonArr, hw, hws]; rfl⟩

theorem ts2pyObj_total : ∀ (kvs : PObj), wfEnvelopesObj kvs = true →
    ∃ ws, typescriptToPythonObj kvs = Except.ok ws
  | rnil, _ => ⟨_, rfl⟩
  | rcons k v rest, h => by
    have hp : wfEnvelopes v = true ∧ wfEnvelopesObj rest = true := by
      simpa [wfEnvelopesObj] using h
    obtain ⟨w, hw⟩ := ts2py_total v hp.1
    obtain ⟨ws, hws⟩ := ts2pyObj_total rest hp.2
    exact ⟨rcons k w ws, by simp only [typescriptToPythonObj, hw, hws]; rfl⟩

end

end OpenCodeBridge

namespace OpenCodeBridge

open PyValue PArr PObj

/-! ## Claim C7 — codec totality -/

/-- C7, as stated, is false in both directions: `python_to_typescript`
raises `AttributeError` on every tuple (its tuple branch calls
`setattr(result, '__type__', 'tuple')` on a plain list, which has no
attribute dict), and `typescript_to_python` raises `ValueError` on a
malformed `datetime` envelope (the missing `isoformat` field defaults
to `''`, which `datetime.fromisoformat` rejects). -/
theorem C7_counterexample :
    pythonToTypescript (pTuple qnil) =
      Except.error (PyRaise.attributeErr "list object has no attribute __type__") ∧
    typescriptToPython (pDict (rcons "__type__" (pStr "datetime") rnil)) =
      Except.error (PyRaise.valueErr "Invalid isoformat string: ") :=
  ⟨rfl, rfl⟩

/-- C7 (amended): `python_to_typescript` returns a value on every input
in which no tuple is reachable through dict/list recursion (the tuple
branch raises `AttributeError`), and `typescript_to_python` returns a
value on every input whose tagged envelopes carry well-formed payloads
(malformed datetime/Decimal/bytes/set payloads raise the constructor's
error); unrecognized `__type__` tags degrade gracefully to ordinary
dict recursion rather than failing. -/
theorem C7_totality_on_wellformed (v : PyValue)
    (hnt : noReachableTuple v = true) (hwf : wfEnvelopes v = true) :
    (∃ w, pythonToTypescript v = Except.ok w) ∧
    (∃ w, typescriptToPython v = Except.ok w) :=
  ⟨py2ts_total v hnt, ts2py_total v hwf⟩

/-- Witness for `C7_totality_on_wellformed` at a value exercising the
envelope paths. -/
theorem C7_totality_on_wellformed_witness :
    (∃ w, pythonToTypescript
      (pDict (rcons "a" (pSet (qcons (pTuple qnil) qnil))
        (rcons "b" (pList (qcons (pBytes [104, 105]) qnil)) rnil))) = Except.ok w) ∧
    (∃ w, typescriptToPython
      (pDict (rcons "a" (pSet (qcons (pTuple qnil) qnil))
        (rcons "b" (pList (qcons (pBytes [104, 105]) qnil)) rnil))) = Except.ok w) := by
  exact C7_totality_on_wellformed _ (by decide) (by decide)

end OpenCodeBridge

namespace OpenCodeBridge

open JValue JArr JObj SType Schema OptSchema PropL OptSchemaL SchemaL

/-! ### Validator success/message lemmas -/

theorem optCheck_ok_iff_none {o : Option α} {bad : α → Bool} {msg : α → String}
    {next : Bool × Option String} (h : next.1 = true ↔ next.2 = none) :
    (optCheck o bad msg next).1 = true ↔ (optCheck o bad msg next).2 = none := by
  cases o with
  | none => exact h
  | some a =>
    by_cases hb : bad a
    · simp [optCheck, hb]
    · simpa [optCheck, hb] using h

theorem itemsLoopF_ok_iff_none (f : JValue → Bool × Option String) :
    ∀ (xs : JArr) (i : Nat),
      (itemsLoopF f xs i).1 = true ↔ (itemsLoopF f xs i).2 = none
  | anil, _ => by simp [itemsLoopF]
  | acons x rest, i => by
    cases hf : f x with
    | mk b e =>
      cases b
      · simp [itemsLoopF, hf]
      · simpa [itemsLoopF, hf] using itemsLoopF_ok_iff_none f rest (i + 1)

theorem validatePropsLoop_ok_iff_none : ∀ (ps : PropL) (kvs : JObj),
    (validatePropsLoop ps kvs).1 = true ↔ (validatePropsLoop ps kvs).2 = none
  | pnil, _ => by simp [validatePropsLoop]
  | pcons p Sp rest, kvs => by
    simp only [validatePropsLoop]
    cases hf : objFind kvs p with
    | none => simpa [hf] using validatePropsLoop_ok_iff_none rest kvs
    | some w =>
      cases hv : validateJ Sp w with
      | mk b e =>
        cases b
        · simp [hf, hv]
        · simpa [hf, hv] using validatePropsLoop_ok_iff_none rest kvs

theorem allOfLoop_iff_of : ∀ (ss : SchemaL) (v : JValue),
    (∀ s : Schema, sizeOf s < sizeOf ss →
      ((validateJ s v).1 = true ↔ (validateJ s v).2 = none)) →
    ((allOfLoop ss v).1 = true ↔ (allOfLoop ss v).2 = none)
  | snil, v, _ => by simp [allOfLoop]
  | scons s rest, v, h => by
    have hs := h s (by simp only [SchemaL.scons.sizeOf_spec]; omega)
    have hrest := allOfLoop_iff_of rest v (fun s2 hs2 => h s2 (by
      simp only [SchemaL.scons.sizeOf_spec]
      omega))
    cases hv : validateJ s v with
    | mk b e =>
      cases b
      · rw [hv] at hs
        simpa [allOfLoop, hv] using hs
      · simpa [allOfLoop, hv] using hrest

theorem validateIffAux : ∀ (n : Nat) (S : Schema) (v : JValue), sizeOf S ≤ n →
    ((validateJ S v).1 = true ↔ (validateJ S v).2 = none) := by
  intro n
  induction n with
  | zero =>
    intro S v h
    obtain ⟨stype, minL, maxL, pat, enumV, mn, mx, minI, maxI, items, props, req, addP,
      anyS, oneS, allS⟩ := S
    simp only [Schema.mk.sizeOf_spec] at h
    omega
  | succ n ih =>
    intro S v hS
    obtain ⟨stype, minL, maxL, pat, enumV, mn, mx, minI, maxI, items, props, req, addP,
      anyS, oneS, allS⟩ := S
    simp only [Schema.mk.sizeOf_spec] at hS
    cases stype with
    | none =>
      cases anyS with
      | presentL ss =>
        simp only [validateJ]
        by_cases ha : anyOfLoop ss v <;> simp [ha]
      | absentL =>
        cases oneS with
        | presentL ss =>
          simp only [validateJ]
          rcases hc : oneOfCount ss v with _ | m
          · simp [hc]
          · cases m <;> simp [hc]
        | absentL =>
          cases allS with
          | presentL ss =>
            simp only [validateJ]
            apply allOfLoop_iff_of ss v
            intro s hs
            apply ih s v
            simp only [OptSchemaL.presentL.sizeOf_spec] at hS
            omega
          | absentL => simp [validateJ]
    | some t =>
      cases t with
      | tString =>
        cases v with
        | jStr s =>
          simp only [validateJ]
          apply optCheck_ok_iff_none
          apply optCheck_ok_iff_none
          apply optCheck_ok_iff_none
          apply optCheck_ok_iff_none
          simp
        | jNull => simp [validateJ]
        | jBool b => simp [validateJ]
        | jInt n2 => simp [validateJ]
        | jFloat q => simp [validateJ]
        | jList xs => simp [validateJ]
        | jDict kvs => simp [validateJ]
      | tNumber =>
        cases v with
        | jBool b =>
          simp only [validateJ, numVal]
          apply optCheck_ok_iff_none
          apply optCheck_ok_iff_none
          simp
        | jInt n2 =>
          simp only [validateJ, numVal]
          apply optCheck_ok_iff_none
          apply optCheck_ok_iff_none
          simp
        | jFloat q =>
          simp only [validateJ, numVal]
          apply optCheck_ok_iff_none
          apply optCheck_ok_iff_none
          simp
        | jNull => simp [validateJ, numVal]
        | jStr s => simp [validateJ, numVal]
        | jList xs => simp [validateJ, numVal]
        | jDict kvs => simp [validateJ, numVal]
      | tInteger =>
        cases v with
        | jFloat q => simp [validateJ, numVal]
        | jNull => simp [validateJ, numVal]
        | jBool b =>
          simp only [validateJ, numVal]
          apply optCheck_ok_iff_none
          apply optCheck_ok_iff_none
          simp
        | jInt n2 =>
          simp only [validateJ, numVal]
          apply optCheck_ok_iff_none
          apply optCheck_ok_iff_none
          simp
        | jStr s => simp [validateJ, numVal]
        | jList xs => simp [validateJ, numVal]
        | jDict kvs => simp [validateJ, numVal]
      | tBoolean =>
        cases v <;> simp [validateJ]
      | tNull =>
        cases v <;> simp [validateJ]
      | tArray =>
        cases v with
        | jList xs =>
          cases items with
          | someS Si =>
            simp only [validateJ]
            apply optCheck_ok_iff_none
            apply optCheck_ok_iff_none
            exact itemsLoopF_ok_iff_none _ xs 0
          | noneS =>
            simp only [validateJ]
            apply optCheck_ok_iff_none
            apply optCheck_ok_iff_none
            simp
        | jNull => simp [validateJ]
        | jBool b => simp [validateJ]
        | jInt n2 => simp [validateJ]
        | jFloat q => simp [validateJ]
        | jStr s => simp [validateJ]
        | jDict kvs => simp [validateJ]
      | tObject =>
        cases v with
        | jDict kvs =>
          simp only [validateJ]
          cases hp : validatePropsLoop props kvs with
          | mk b e =>
            cases b
            · have hiff := validatePropsLoop_ok_iff_none props kvs
              rw [hp] at hiff
              simpa [hp] using hiff
            · simp only [hp]
              cases hr : requiredFirstMissing req kvs with
              | some r => simp [hr]
              | none =>
                simp only [hr]
                by_cases haddp : (addP == some false) = true
                · rw [if_pos haddp]
                  by_cases hextra :
                      ((objKeys kvs).any fun k => !(propKeys props).contains k) = true
                  · rw [if_pos hextra]
                    simp
                  · rw [if_neg hextra]
                    simp
                · rw [if_neg haddp]
                  simp
        | jNull => simp [validateJ]
        | jBool b => simp [validateJ]
        | jInt n2 => simp [validateJ]
        | jFloat q => simp [validateJ]
        | jStr s => simp [validateJ]
        | jList xs => simp [validateJ]

theorem validateJ_ok_iff_none (S : Schema) (v : JValue) :
    (validateJ S v).1 = true ↔ (validateJ S v).2 = none :=
  validateIffAux (sizeOf S) S v (Nat.le_refl _)

/-! ## Claim C8 — all violations reported? -/

/-- C8, as stated, is false for the in-repo validator:
`TypeConverter.validate_against_schema` returns `(bool, Optional[str])`
— at most one message, the first violation encountered.  On the empty
object against `required: [a, b]` both required constraints are
violated, yet only the message for `a` is returned and the message for
`b` is absent.  (The `SchemaTranslator.validate_json_schema` path
reaches the claimed behavior only by deferring to the external
`jsonschema` package.) -/
theorem C8_counterexample :
    validateJ schemaReqAB (jDict onil) = (false, some "Missing required property a") ∧
    missingRequired ["a", "b"] onil = ["a", "b"] ∧
    "Missing required property a" ≠ "Missing required property b" := by
  constructor
  · rfl
  · constructor
    · rfl
    · decide

/-- C8 (amended): the validator reports only the first violated
constraint, as a single optional message; success carries no message
and failure always carries exactly one: `ok == true` iff the message
slot is `None`. -/
theorem C8_first_violation_only (S : Schema) (v : JValue) :
    (validateJ S v).1 = true ↔ (validateJ S v).2 = none :=
  validateJ_ok_iff_none S v

end OpenCodeBridge

namespace OpenCodeBridge

open JValue JArr JObj SType Schema OptSchema PropL OptSchemaL SchemaL

theorem optHolds_true (o : Option α) : optHolds o (fun _ => true) = true := by
  cases o <;> rfl

theorem optHolds_some (a : α) (f : α → Bool) : optHolds (some a) f = f a := rfl

theorem optHolds_none (f : α → Bool) : optHolds none f = true := rfl

theorem optCheck_fst (o : Option α) (bad : α → Bool) (msg : α → String)
    (next : Bool × Option String) :
    (optCheck o bad msg next).1 = (optHolds o (fun a => !bad a) && next.1) := by
  cases o with
  | none => simp [optCheck, optHolds]
  | some a =>
    by_cases hb : bad a = true
    · simp [optCheck, optHolds, hb]
    · simp [optCheck, optHolds, hb]

theorem itemsLoopF_fst_eq (f : JValue → Bool × Option String) (g : JValue → Bool)
    (h : ∀ x, (f x).1 = g x) : ∀ (xs : JArr) (i : Nat),
    (itemsLoopF f xs i).1 = arrAllF g xs
  | anil, _ => rfl
  | acons x rest, i => by
    have hx := h x
    cases hf : f x with
    | mk b e =>
      rw [hf] at hx
      cases b
      · simp [itemsLoopF, arrAllF, hf, ← hx]
      · simp [itemsLoopF, arrAllF, hf, ← hx, itemsLoopF_fst_eq f g h rest (i + 1)]

theorem requiredFirstMissing_isNone : ∀ (req : List String) (kvs : JObj),
    (requiredFirstMissing req kvs).isNone = reqAll req kvs
  | [], _ => rfl
  | r :: rest, kvs => by
    by_cases h : objHasKey kvs r
    · simp [requiredFirstMissing, reqAll, h, requiredFirstMissing_isNone rest kvs]
    · simp [requiredFirstMissing, reqAll, h]

theorem not_any_not (l : List String) (p : String → Bool) :
    (!l.any fun k => !p k) = l.all p := by
  induction l with
  | nil => rfl
  | cons a rest ih => simp [List.any_cons, List.all_cons, ← ih]

theorem propsLoop_fst_eq : ∀ (ps : PropL) (kvs : JObj),
    (∀ s : Schema, sizeOf s < sizeOf ps → schemaWF s = true →
      ∀ w, (validateJ s w).1 = satisfiesJ s w) →
    wfProps ps = true →
    (validatePropsLoop ps kvs).1 = propsAllSat ps kvs
  | pnil, kvs, _, _ => rfl
  | pcons p Sp rest, kvs, hpt, hwf => by
    have hw : schemaWF Sp = true ∧ wfProps rest = true := by
      simpa [wfProps, Bool.and_eq_true] using hwf
    have hrest := propsLoop_fst_eq rest kvs
      (fun s hs hws w => hpt s (by simp only [PropL.pcons.sizeOf_spec] at hs ⊢; omega) hws w)
      hw.2
    simp only [validatePropsLoop, propsAllSat]
    cases hf : objFind kvs p with
    | none => simpa using hrest
    | some w =>
      have heq := hpt Sp (by simp only [PropL.pcons.sizeOf_spec]; omega) hw.1 w
      cases hv : validateJ Sp w with
      | mk b e =>
        rw [hv] at heq
        cases b
        · simp [hv, ← heq]
        · simp [hv, ← heq, hrest]

theorem anyOfLoop_eq : ∀ (ss : SchemaL) (v : JValue),
    (∀ s : Schema, sizeOf s < sizeOf ss → schemaWF s = true →
      ∀ w, (validateJ s w).1 = satisfiesJ s w) →
    wfList ss = true →
    anyOfLoop ss v = anySat ss v
  | snil, _, _, _ => rfl
  | scons s rest, v, hpt, hwf => by
    have hw : schemaWF s = true ∧ wfList rest = true := by
      simpa [wfList, Bool.and_eq_true] using hwf
    have heq := hpt s (by simp only [SchemaL.scons.sizeOf_spec]; omega) hw.1 v
    have hrest := anyOfLoop_eq rest v
      (fun s2 hs hws w => hpt s2 (by simp only [SchemaL.scons.sizeOf_spec] at hs ⊢; omega) hws w)
      hw.2
    simp [anyOfLoop, anySat, heq, hrest]

theorem oneOfCount_eq : ∀ (ss : SchemaL) (v : JValue),
    (∀ s : Schema, sizeOf s < sizeOf ss → schemaWF s = true →
      ∀ w, (validateJ s w).1 = satisfiesJ s w) →
    wfList ss = true →
    oneOfCount ss v = countSat ss v
  | snil, _, _, _ => rfl
  | scons s rest, v, hpt, hwf => by
    have hw : schemaWF s = true ∧ wfList rest = true := by
      simpa [wfList, Bool.and_eq_true] using hwf
    have heq := hpt s (by simp only [SchemaL.scons.sizeOf_spec]; omega) hw.1 v
    have hrest := oneOfCount_eq rest v
      (fun s2 hs hws w => hpt s2 (by simp only [SchemaL.scons.sizeOf_spec] at hs ⊢; omega) hws w)
      hw.2
    simp [oneOfCount, countSat, heq, hrest]

theorem allOfLoop_fst_eq : ∀ (ss : SchemaL) (v : JValue),
    (∀ s : Schema, sizeOf s < sizeOf ss → schemaWF s = true →
      ∀ w, (validateJ s w).1 = satisfiesJ s w) →
    wfList ss = true →
    (allOfLoop ss v).1 = allSat ss v
  | snil, _, _, _ => rfl
  | scons s rest, v, hpt, hwf => by
    have hw : schemaWF s = true ∧ wfList rest = true := by
      simpa [wfList, Bool.and_eq_true] using hwf
    have heq := hpt s (by simp only [SchemaL.scons.sizeOf_spec]; omega) hw.1 v
    have hrest := allOfLoop_fst_eq rest v
      (fun s2 hs hws w => hpt s2 (by simp only [SchemaL.scons.sizeOf_spec] at hs ⊢; omega) hws w)
      hw.2
    cases hv : validateJ s v with
    | mk b e =>
      rw [hv] at heq
      cases b
      · simp [allOfLoop, allSat, hv, ← heq]
      · simp [allOfLoop, allSat, hv, ← heq, hrest]

theorem listOr_true (v : JValue) : listOr v (fun _ => true) = true := by
  cases v <;> rfl

theorem dictOr_true (v : JValue) : dictOr v (fun _ => true) = true := by
  cases v <;> rfl

theorem bnot_lt_nat (a b : Nat) : (!decide (a < b)) = decide (b ≤ a) := by
  by_cases h : a < b
  · have h2 : ¬ b ≤ a := by omega
    simp [h, h2]
  · have h2 : b ≤ a := by omega
    simp [h, h2]

theorem bnot_gt_nat (a b : Nat) : (!decide (a > b)) = decide (a ≤ b) := by
  by_cases h : a > b
  · have h2 : ¬ a ≤ b := by omega
    simp [h, h2]
  · have h2 : a ≤ b := by omega
    simp [h, h2]

theorem bnot_lt_rat (a b : Rat) : (!decide (a < b)) = decide (b ≤ a) := by
  rcases lt_or_le a b with h | h
  · simp [h, not_le.mpr h]
  · simp [not_lt.mpr h, h]

theorem bnot_gt_rat (a b : Rat) : (!decide (a > b)) = decide (a ≤ b) := by
  rcases lt_or_le b a with h | h
  · simp [h, not_le.mpr h]
  · simp [not_lt.mpr h, h]

set_option maxHeartbeats 1000000 in
theorem validEqSatAux : ∀ (n : Nat) (S : Schema) (v : JValue), sizeOf S ≤ n →
    schemaWF S = true → (validateJ S v).1 = satisfiesJ S v := by
  intro n
  induction n with
  | zero =>
    intro S v h _
    obtain ⟨stype, minL, maxL, pat, enumV, mn, mx, minI, maxI, items, props, req, addP,
      anyS, oneS, allS⟩ := S
    simp only [Schema.mk.sizeOf_spec] at h
    omega
  | succ n ih =>
    intro S v hS hW
    obtain ⟨stype, minL, maxL, pat, enumV, mn, mx, minI, maxI, items, props, req, addP,
      anyS, oneS, allS⟩ := S
    simp only [Schema.mk.sizeOf_spec] at hS
    cases stype with
    | none =>
      simp only [schemaWF, Bool.and_eq_true, beq_iff_eq, Option.isNone_iff_eq_none] at hW
      obtain ⟨⟨⟨⟨⟨hitems, hprops⟩, hanyw⟩, honew⟩, hallw⟩, rest⟩ := hW
      obtain ⟨⟨⟨⟨⟨⟨⟨⟨⟨⟨⟨⟨hminL, hmaxL⟩, hpat⟩, henum⟩, hmn⟩, hmx⟩, hminI⟩, hmaxI⟩,
        hitemsE⟩, hpropsE⟩, hreqE⟩, haddP⟩, hcomp⟩ := rest
      subst hminL hmaxL hpat henum hmn hmx hminI hmaxI hitemsE hpropsE haddP
      have hreqnil : req = [] := by
        cases req with
        | nil => rfl
        | cons a l => simp [List.isEmpty] at hreqE
      subst hreqnil
      have hbeq : ((none : Option Bool) == some false) = false := rfl
      cases anyS with
      | presentL ss =>
        cases oneS with
        | presentL ss2 => simp at hcomp
        | absentL =>
          cases allS with
          | presentL ss3 => simp at hcomp
          | absentL =>
            have hwl : wfList ss = true := by simpa [wfOptL] using hanyw
            have hrec : ∀ s2, sizeOf s2 < sizeOf ss → schemaWF s2 = true →
                ∀ w, (validateJ s2 w).1 = satisfiesJ s2 w := by
              intro s2 hls hws w
              apply ih s2 w _ hws
              simp only [OptSchemaL.presentL.sizeOf_spec] at hS
              omega
            have hA := anyOfLoop_eq ss v hrec hwl
            cases hb : anyOfLoop ss v with
            | false =>
              simp only [validateJ, satisfiesJ, satBody, optItemsAll, propsAllSat, reqAll,
                keysSubset, List.all_nil, listOr_true, dictOr_true, optAnySat, optOneSat,
                optAllSat, optHolds_none, hbeq, Bool.false_eq_true, if_false, if_true, hb,
                ← hA, Bool.true_and, Bool.and_true, Bool.false_and, Bool.and_false,
                Bool.and_assoc, ite_self]
            | true =>
              simp only [validateJ, satisfiesJ, satBody, optItemsAll, propsAllSat, reqAll,
                keysSubset, List.all_nil, listOr_true, dictOr_true, optAnySat, optOneSat,
                optAllSat, optHolds_none, hbeq, Bool.false_eq_true, if_false, if_true, hb,
                ← hA, Bool.true_and, Bool.and_true, Bool.false_and, Bool.and_false,
                Bool.and_assoc, ite_self]
      | absentL =>
        cases oneS with
        | presentL ss =>
          cases allS with
          | presentL ss3 => simp at hcomp
          | absentL =>
            have hwl : wfList ss = true := by simpa [wfOptL] using honew
            have hrec : ∀ s2, sizeOf s2 < sizeOf ss → schemaWF s2 = true →
                ∀ w, (validateJ s2 w).1 = satisfiesJ s2 w := by
              intro s2 hls hws w
              apply ih s2 w _ hws
              simp only [OptSchemaL.presentL.sizeOf_spec] at hS
              omega
            have hO := oneOfCount_eq ss v hrec hwl
            rcases hc : oneOfCount ss v with _ | m
            · simp only [validateJ, satisfiesJ, satBody, optItemsAll, propsAllSat, reqAll,
                keysSubset, List.all_nil, listOr_true, dictOr_true, optAnySat, optOneSat,
                optAllSat, optHolds_none, hbeq, Bool.false_eq_true, if_false, if_true, hc,
                ← hO, Bool.true_and, Bool.and_true, Bool.false_and, Bool.and_false,
                Bool.and_assoc, ite_self]
              rfl
            · cases m with
              | zero =>
                simp only [validateJ, satisfiesJ, satBody, optItemsAll, propsAllSat,
                  reqAll, keysSubset, List.all_nil, listOr_true, dictOr_true, optAnySat,
                  optOneSat, optAllSat, optHolds_none, hbeq, Bool.false_eq_true, if_false,
                  if_true, hc, ← hO, Bool.true_and, Bool.and_true, Bool.false_and,
                  Bool.and_false, Bool.and_assoc, ite_self]
                rfl
              | succ m2 =>
                simp only [validateJ, satisfiesJ, satBody, optItemsAll, propsAllSat,
                  reqAll, keysSubset, List.all_nil, listOr_true, dictOr_true, optAnySat,
                  optOneSat, optAllSat, optHolds_none, hbeq, Bool.false_eq_true, if_false,
                  if_true, hc, ← hO, Bool.true_and, Bool.and_true, Bool.false_and,
                  Bool.and_false, Bool.and_assoc, ite_self]
                symm
                rw [beq_eq_false_iff_ne]
                omega
        | absentL =>
          cases allS with
          | presentL ss =>
            have hwl : wfList ss = true := by simpa [wfOptL] using hallw
            have hrec : ∀ s2, sizeOf s2 < sizeOf ss → schemaWF s2 = true →
                ∀ w, (validateJ s2 w).1 = satisfiesJ s2 w := by
              intro s2 hls hws w
              apply ih s2 w _ hws
              simp only [OptSchemaL.presentL.sizeOf_spec] at hS
              omega
            have hAl := allOfLoop_fst_eq ss v hrec hwl
            simp only [validateJ, satisfiesJ, satBody, optItemsAll, propsAllSat, reqAll,
              keysSubset, List.all_nil, listOr_true, dictOr_true, optAnySat, optOneSat,
              optAllSat, optHolds_none, hbeq, Bool.false_eq_true, if_false, if_true, hAl,
              Bool.true_and, Bool.and_true, Bool.false_and, Bool.and_false, Bool.and_assoc,
              ite_self]
          | absentL =>
            simp only [validateJ, satisfiesJ, satBody, optItemsAll, propsAllSat, reqAll,
              keysSubset, List.all_nil, listOr_true, dictOr_true, optAnySat, optOneSat,
              optAllSat, optHolds_none, hbeq, Bool.false_eq_true, if_false, if_true,
              Bool.true_and, Bool.and_true, Bool.false_and, Bool.and_false, Bool.and_assoc,
              ite_self]
    | some t =>
      cases t with
      | tBoolean =>
        simp only [schemaWF, Bool.and_eq_true, beq_iff_eq, Option.isNone_iff_eq_none] at hW
        obtain ⟨⟨⟨⟨⟨hitems, hprops⟩, hanyw⟩, honew⟩, hallw⟩,
          ⟨⟨⟨⟨henum, hmn⟩, hmx⟩, hany⟩, hone⟩, hall⟩ := hW
        subst henum hmn hmx hany hone hall
        cases v <;>
          simp only [validateJ, satisfiesJ, satBody, listOr, dictOr, optAnySat, optOneSat,
            optAllSat, typeMatches, numVal, optHolds_some, optHolds_none, optHolds_true,
            Bool.true_and, Bool.and_true, Bool.false_and, Bool.and_false, ite_self]
      | tNull =>
        simp only [schemaWF, Bool.and_eq_true, beq_iff_eq, Option.isNone_iff_eq_none] at hW
        obtain ⟨⟨⟨⟨⟨hitems, hprops⟩, hanyw⟩, honew⟩, hallw⟩,
          ⟨⟨⟨henum, hany⟩, hone⟩, hall⟩⟩ := hW
        subst henum hany hone hall
        cases v <;>
          simp only [validateJ, satisfiesJ, satBody, listOr, dictOr, optAnySat, optOneSat,
            optAllSat, typeMatches, numVal, optHolds_some, optHolds_none, optHolds_true,
            Bool.true_and, Bool.and_true, Bool.false_and, Bool.and_false, ite_self]
      | tString =>
        simp only [schemaWF, Bool.and_eq_true, beq_iff_eq] at hW
        obtain ⟨⟨⟨⟨⟨hitems, hprops⟩, hanyw⟩, honew⟩, hallw⟩, ⟨⟨hany, hone⟩, hall⟩⟩ := hW
        subst hany hone hall
        cases v <;>
          simp only [validateJ, satisfiesJ, satBody, listOr, dictOr, optAnySat, optOneSat,
            optAllSat, typeMatches, numVal, optCheck_fst, optHolds_some, optHolds_none,
            optHolds_true, bnot_lt_nat, bnot_gt_nat, Bool.not_not, Bool.true_and,
            Bool.and_true, Bool.false_and, Bool.and_false, Bool.and_assoc, ite_self]
      | tNumber =>
        simp only [schemaWF, Bool.and_eq_true, beq_iff_eq, Option.isNone_iff_eq_none] at hW
        obtain ⟨⟨⟨⟨⟨hitems, hprops⟩, hanyw⟩, honew⟩, hallw⟩,
          ⟨⟨⟨henum, hany⟩, hone⟩, hall⟩⟩ := hW
        subst henum hany hone hall
        cases v <;>
          simp only [validateJ, satisfiesJ, satBody, listOr, dictOr, optAnySat, optOneSat,
            optAllSat, typeMatches, numVal, optCheck_fst, optHolds_some, optHolds_none,
            optHolds_true, bnot_lt_rat, bnot_gt_rat, Bool.not_not, Option.isSome_some,
            Option.isSome_none, Bool.true_and, Bool.and_true, Bool.false_and,
            Bool.and_false, Bool.and_assoc, ite_self]
      | tInteger =>
        simp only [schemaWF, Bool.and_eq_true, beq_iff_eq, Option.isNone_iff_eq_none] at hW
        obtain ⟨⟨⟨⟨⟨hitems, hprops⟩, hanyw⟩, honew⟩, hallw⟩,
          ⟨⟨⟨henum, hany⟩, hone⟩, hall⟩⟩ := hW
        subst henum hany hone hall
        cases v <;>
          simp only [validateJ, satisfiesJ, satBody, listOr, dictOr, optAnySat, optOneSat,
            optAllSat, typeMatches, numVal, optCheck_fst, optHolds_some, optHolds_none,
            optHolds_true, bnot_lt_rat, bnot_gt_rat, Bool.not_not, Bool.true_and,
            Bool.and_true, Bool.false_and, Bool.and_false, Bool.and_assoc, ite_self]
      | tArray =>
        simp only [schemaWF, Bool.and_eq_true, beq_iff_eq, Option.isNone_iff_eq_none] at hW
        obtain ⟨⟨⟨⟨⟨hitems, hprops⟩, hanyw⟩, honew⟩, hallw⟩,
          ⟨⟨⟨henum, hany⟩, hone⟩, hall⟩⟩ := hW
        subst henum hany hone hall
        cases v with
        | jList xs =>
          cases items with
          | noneS =>
            simp only [validateJ, satisfiesJ, satBody, listOr, dictOr, optAnySat, optOneSat,
              optAllSat, optItemsAll, typeMatches, numVal, optCheck_fst, optHolds_some,
              optHolds_none, optHolds_true, bnot_lt_nat, bnot_gt_nat, Bool.not_not,
              Bool.true_and, Bool.and_true, Bool.false_and, Bool.and_false, Bool.and_assoc,
              ite_self]
          | someS Si =>
            have hws : schemaWF Si = true := by simpa [wfOpt] using hitems
            have hrec : ∀ x, (validateJ Si x).1 = satisfiesJ Si x := by
              intro x
              apply ih Si x _ hws
              simp only [OptSchema.someS.sizeOf_spec] at hS
              omega
            have hloop := itemsLoopF_fst_eq (fun x => validateJ Si x)
              (fun x => satisfiesJ Si x) hrec xs 0
            simp only [validateJ, satisfiesJ, satBody, listOr, dictOr, optAnySat, optOneSat,
              optAllSat, optItemsAll, typeMatches, numVal, optCheck_fst, optHolds_some,
              optHolds_none, optHolds_true, bnot_lt_nat, bnot_gt_nat, Bool.not_not,
              Bool.true_and, Bool.and_true, Bool.false_and, Bool.and_false, Bool.and_assoc,
              ite_self, hloop]
        | jNull =>
          simp only [validateJ, satisfiesJ, satBody, listOr, dictOr, optAnySat, optOneSat,
            optAllSat, typeMatches, numVal, optHolds_some, optHolds_none, optHolds_true,
            Option.isSome_none, Bool.true_and, Bool.and_true, Bool.false_and,
            Bool.and_false, Bool.and_assoc, ite_self]
        | jBool b =>
          simp only [validateJ, satisfiesJ, satBody, listOr, dictOr, optAnySat, optOneSat,
            optAllSat, typeMatches, numVal, optHolds_some, optHolds_none, optHolds_true,
            Option.isSome_none, Bool.true_and, Bool.and_true, Bool.false_and,
            Bool.and_false, Bool.and_assoc, ite_self]
        | jInt n2 =>
          simp only [validateJ, satisfiesJ, satBody, listOr, dictOr, optAnySat, optOneSat,
            optAllSat, typeMatches, numVal, optHolds_some, optHolds_none, optHolds_true,
            Option.isSome_none, Bool.true_and, Bool.and_true, Bool.false_and,
            Bool.and_false, Bool.and_assoc, ite_self]
        | jFloat q =>
          simp only [validateJ, satisfiesJ, satBody, listOr, dictOr, optAnySat, optOneSat,
            optAllSat, typeMatches, numVal, optHolds_some, optHolds_none, optHolds_true,
            Option.isSome_none, Bool.true_and, Bool.and_true, Bool.false_and,
            Bool.and_false, Bool.and_assoc, ite_self]
        | jStr st =>
          simp only [validateJ, satisfiesJ, satBody, listOr, dictOr, optAnySat, optOneSat,
            optAllSat, typeMatches, numVal, optHolds_some, optHolds_none, optHolds_true,
            Option.isSome_none, Bool.true_and, Bool.and_true, Bool.false_and,
            Bool.and_false, Bool.and_assoc, ite_self]
        | jDict kvs =>
          simp only [validateJ, satisfiesJ, satBody, listOr, dictOr, optAnySat, optOneSat,
            optAllSat, typeMatches, numVal, optHolds_some, optHolds_none, optHolds_true,
            Option.isSome_none, Bool.true_and, Bool.and_true, Bool.false_and,
            Bool.and_false, Bool.and_assoc, ite_self]
      | tObject =>
        simp only [schemaWF, Bool.and_eq_true, beq_iff_eq, Option.isNone_iff_eq_none] at hW
        obtain ⟨⟨⟨⟨⟨hitems, hprops⟩, hanyw⟩, honew⟩, hallw⟩,
          ⟨⟨⟨henum, hany⟩, hone⟩, hall⟩⟩ := hW
        subst henum hany hone hall
        cases v with
        | jDict kvs =>
          have hrecP : ∀ s2, sizeOf s2 < sizeOf props → schemaWF s2 = true →
              ∀ w, (validateJ s2 w).1 = satisfiesJ s2 w := by
            intro s2 hls hws w
            apply ih s2 w _ hws
            omega
          have hploop := propsLoop_fst_eq props kvs hrecP hprops
          cases hpl : validatePropsLoop props kvs with
          | mk pb pe =>
            rw [hpl] at hploop
            cases pb with
            | false =>
              simp only [validateJ, satisfiesJ, satBody, listOr, dictOr, optAnySat,
                optOneSat, optAllSat, typeMatches, numVal, optHolds_some, optHolds_none,
                optHolds_true, hpl, ← hploop, Bool.true_and, Bool.and_true, Bool.false_and,
                Bool.and_false, Bool.and_assoc, ite_self]
            | true =>
              cases hrm : requiredFirstMissing req kvs with
              | some r =>
                have hreq : reqAll req kvs = false := by
                  rw [← requiredFirstMissing_isNone, hrm]
                  rfl
                simp only [validateJ, satisfiesJ, satBody, listOr, dictOr, optAnySat,
                  optOneSat, optAllSat, typeMatches, numVal, optHolds_some, optHolds_none,
                  optHolds_true, hpl, hrm, ← hploop, hreq, Bool.true_and, Bool.and_true,
                  Bool.false_and, Bool.and_false, Bool.and_assoc, ite_self]
              | none =>
                have hreq : reqAll req kvs = true := by
                  rw [← requiredFirstMissing_isNone, hrm]
                  rfl
                have hsub := not_any_not (objKeys kvs) (fun k => (propKeys props).contains k)
                by_cases haddp : (addP == some false) = true
                · by_cases hxs : ((objKeys kvs).any fun k => !(propKeys props).contains k) = true
                  · have hks : keysSubset kvs props = false := by
                      rw [keysSubset, ← hsub, hxs]
                      rfl
                    simp only [validateJ, satisfiesJ, satBody, listOr, dictOr, optAnySat,
                      optOneSat, optAllSat, typeMatches, numVal, optHolds_some,
                      optHolds_none, optHolds_true, hpl, hrm, ← hploop, hreq, haddp, hxs,
                      hks, if_true, Bool.true_and, Bool.and_true, Bool.false_and,
                      Bool.and_false, Bool.and_assoc, ite_self]
                  · have hxs2 : ((objKeys kvs).any fun k => !(propKeys props).contains k)
                        = false := by
                      cases hx : (objKeys kvs).any fun k => !(propKeys props).contains k
                      · rfl
                      · exact absurd hx hxs
                    have hks : keysSubset kvs props = true := by
                      rw [keysSubset, ← hsub, hxs2]
                      rfl
                    simp only [validateJ, satisfiesJ, satBody, listOr, dictOr, optAnySat,
                      optOneSat, optAllSat, typeMatches, numVal, optHolds_some,
                      optHolds_none, optHolds_true, hpl, hrm, ← hploop, hreq, haddp, hxs2,
                      hks, if_true, Bool.false_eq_true, if_false, Bool.true_and,
                      Bool.and_true, Bool.false_and, Bool.and_false, Bool.and_assoc,
                      ite_self]
                · have haddp2 : (addP == some false) = false := by
                    cases hx : addP == some false
                    · rfl
                    · exact absurd hx haddp
                  simp only [validateJ, satisfiesJ, satBody, listOr, dictOr, optAnySat,
                    optOneSat, optAllSat, typeMatches, numVal, optHolds_some, optHolds_none,
                    optHolds_true, hpl, hrm, ← hploop, hreq, haddp2, Bool.false_eq_true,
                    if_false, Bool.true_and, Bool.and_true, Bool.false_and, Bool.and_false,
                    Bool.and_assoc, ite_self]
        | jNull =>
          simp only [validateJ, satisfiesJ, satBody, listOr, dictOr, optAnySat, optOneSat,
            optAllSat, typeMatches, numVal, optHolds_some, optHolds_none, optHolds_true,
            Option.isSome_none, Bool.true_and, Bool.and_true, Bool.false_and,
            Bool.and_false, Bool.and_assoc, ite_self]
        | jBool b =>
          simp only [validateJ, satisfiesJ, satBody, listOr, dictOr, optAnySat, optOneSat,
            optAllSat, typeMatches, numVal, optHolds_some, optHolds_none, optHolds_true,
            Option.isSome_none, Bool.true_and, Bool.and_true, Bool.false_and,
            Bool.and_false, Bool.and_assoc, ite_self]
        | jInt n2 =>
          simp only [validateJ, satisfiesJ, satBody, listOr, dictOr, optAnySat, optOneSat,
            optAllSat, typeMatches, numVal, optHolds_some, optHolds_none, optHolds_true,
            Option.isSome_none, Bool.true_and, Bool.and_true, Bool.false_and,
            Bool.and_false, Bool.and_assoc, ite_self]
        | jFloat q =>
          simp only [validateJ, satisfiesJ, satBody, listOr, dictOr, optAnySat, optOneSat,
            optAllSat, typeMatches, numVal, optHolds_some, optHolds_none, optHolds_true,
            Option.isSome_none, Bool.true_and, Bool.and_true, Bool.false_and,
            Bool.and_false, Bool.and_assoc, ite_self]
        | jStr st =>
          simp only [validateJ, satisfiesJ, satBody, listOr, dictOr, optAnySat, optOneSat,
            optAllSat, typeMatches, numVal, optHolds_some, optHolds_none, optHolds_true,
            Option.isSome_none, Bool.true_and, Bool.and_true, Bool.false_and,
            Bool.and_false, Bool.and_assoc, ite_self]
        | jList xs =>
          simp only [validateJ, satisfiesJ, satBody, listOr, dictOr, optAnySat, optOneSat,
            optAllSat, typeMatches, numVal, optHolds_some, optHolds_none, optHolds_true,
            Option.isSome_none, Bool.true_and, Bool.and_true, Bool.false_and,
            Bool.and_false, Bool.and_assoc, ite_self]

/-- The schema `type: integer, enum: [1, 2]` pairs a recognized type with an
`enum`; the validator checks `enum` only in the string branch, so `jInt 3`
passes validation while violating the `enum` constraint. -/
theorem C3_counterexample :
    validateJ schemaIntEnum (jInt 3) = (true, none) ∧
    satisfiesJ schemaIntEnum (jInt 3) = false := by
  constructor
  · decide
  · decide

/-- C3: On the agreement fragment (`schemaWF`: `enum` only under
`type: string`, numeric bounds absent under `type: boolean`, compositions only
in schemas without a recognized `type`, at most one and unaccompanied),
`validate_against_schema` returns `ok = true` exactly when the value satisfies
every constraint present in the schema. -/
theorem C3_validate_iff_satisfies (S : Schema) (v : JValue)
    (h : schemaWF S = true) : (validateJ S v).1 = satisfiesJ S v :=
  validEqSatAux (sizeOf S) S v (Nat.le_refl _) h

/-- Witness for C3: the full string schema lies in the fragment and the
equivalence is instantiated on a concrete value. -/
theorem C3_validate_iff_satisfies_witness :
    schemaWF schemaStrFull = true ∧
    (validateJ schemaStrFull (jStr "abc")).1 = satisfiesJ schemaStrFull (jStr "abc") :=
  ⟨by decide, C3_validate_iff_satisfies schemaStrFull (jStr "abc") (by decide)⟩

end OpenCodeBridge
